import Mathlib

/-!
# Verification of the spectrum-sharing resource allocation engine

Shallow embedding of the dynamic spectrum-sharing simulator's core
(`models/assignment.py`, `models/environment.py`, `models/node.py`,
`core/spectrum_manager.py`, `core/metrics.py`,
`morphology/architecture_enumerator.py`).

Modelling conventions:
* Python objects mutated in place are modelled by value passing; object
  identity is represented by `assignment_id` (the engine allocates ids
  sequentially, so reachable stores have pairwise distinct ids).
* Python floats are modelled by `ℚ` (the quality factors 0.7 and 0.5 become
  `7/10` and `1/2`); the claims under study only concern the multiplicative
  structure of the quality bookkeeping.
* `random.shuffle` of the frequency-candidate list and the Hybrid-mode coin
  flip are modelled as oracle parameters (the shuffled candidate list and the
  boolean coin are inputs of the admission function).
* The cost counters (`coord_queries`, `human_minutes`, quality samples) of
  `MetricsCollector` are omitted: the claims under study only concern
  `requests_total` and `requests_denied`.
-/

namespace SpectrumSim

/-- `models/node.py`: a node of the grid with the set of unit squares it
covers (the Python `set` is modelled as a duplicate-free list). -/
structure Node where
  node_id : Nat
  row : Nat
  col : Nat
  covered_squares : List Nat
deriving DecidableEq, Repr

def defaultNode : Node := ⟨0, 0, 0, []⟩

/-- `models/environment.py`: the grid of squares with nodes at intersections. -/
structure Environment where
  squares_rows : Nat
  squares_cols : Nat
  nodes : List Node
deriving DecidableEq, Repr

/-- `Environment.generate_nodes`: node at `(r, c)` covers the up-to-four
squares it touches; ids are assigned row-major. -/
def generate_nodes (sr sc : Nat) : List Node :=
  (List.range (sr + 1)).flatMap (fun r =>
    (List.range (sc + 1)).map (fun c =>
      let covered :=
        (if r < sr ∧ c < sc then [r * sc + c] else []) ++
        (if 0 < r ∧ c < sc then [(r - 1) * sc + c] else []) ++
        (if 0 < c ∧ r < sr then [r * sc + (c - 1)] else []) ++
        (if 0 < r ∧ 0 < c then [(r - 1) * sc + (c - 1)] else [])
      { node_id := r * (sc + 1) + c, row := r, col := c, covered_squares := covered }))

/-- `Environment.__init__`. -/
def Environment.make (sr sc : Nat) : Environment :=
  ⟨sr, sc, generate_nodes sr sc⟩

/-- `Environment.get_neighbors`: ids of the up/down/left/right grid neighbors. -/
def get_neighbors (env : Environment) (node_id : Nat) : List Nat :=
  let node := env.nodes.getD node_id defaultNode
  let rows : Int := (env.squares_rows : Int) + 1
  let cols : Int := (env.squares_cols : Int) + 1
  ([(-1, 0), (1, 0), (0, -1), (0, 1)] : List (Int × Int)).filterMap (fun d =>
    let nr : Int := (node.row : Int) + d.1
    let nc : Int := (node.col : Int) + d.2
    if 0 ≤ nr ∧ nr < rows ∧ 0 ≤ nc ∧ nc < cols then
      let neighbor_id := (nr * cols + nc).toNat
      if neighbor_id ≠ node_id then some neighbor_id else none
    else none)

/-- `models/assignment.py`: a granted spectrum lease. -/
structure Assignment where
  assignment_id : Nat
  node_id : Nat
  freq_start : Nat
  freq_end : Nat
  device_type : String
  quality : ℚ
  next_check_tick : Option Nat
  priority_tier : Nat
deriving DecidableEq, Repr

/-- The set-intersection of the two nodes' covered squares
(`this_node.covered_squares.intersection(other_node.covered_squares)`). -/
def sharedSquares (n1 n2 : Node) : List Nat :=
  n1.covered_squares.filter (fun s => s ∈ n2.covered_squares)

/-- `Assignment.conflicts_with`: spectral overlap and spatial overlap. -/
def conflicts_with (a other : Assignment) (env : Environment) : Bool :=
  if a.freq_end ≤ other.freq_start ∨ a.freq_start ≥ other.freq_end then false
  else
    let this_node := env.nodes.getD a.node_id defaultNode
    let other_node := env.nodes.getD other.node_id defaultNode
    !(sharedSquares this_node other_node).isEmpty

/-- `Assignment.get_node_relationship`: "same", "adjacent", "opposite" or
"none", with the special case for the four-node single-square environment. -/
def get_node_relationship (a other : Assignment) (env : Environment) : String :=
  let this_node := env.nodes.getD a.node_id defaultNode
  let other_node := env.nodes.getD other.node_id defaultNode
  if this_node.node_id = other_node.node_id then "same"
  else
    let shared := sharedSquares this_node other_node
    if shared.isEmpty then "none"
    else if env.nodes.length = 4 ∧ shared.length = 1 then
      if (this_node.node_id = 0 ∧ other_node.node_id = 3) ∨
         (this_node.node_id = 3 ∧ other_node.node_id = 0) ∨
         (this_node.node_id = 1 ∧ other_node.node_id = 2) ∨
         (this_node.node_id = 2 ∧ other_node.node_id = 1) then "opposite"
      else "adjacent"
    else
      let manhattan_dist :=
        ((this_node.row : Int) - (other_node.row : Int)).natAbs +
        ((this_node.col : Int) - (other_node.col : Int)).natAbs
      if manhattan_dist = 1 then "adjacent" else "opposite"

/-- `morphology/architecture_enumerator.py`: the eight-dimensional
architecture decision record. -/
structure ArchitecturePolicy where
  coordination_mode : String
  licensing_mode : String
  freq_plan : String
  interference_mitigation : String
  sensing_mode : String
  pricing_mode : String
  enforcement_mode : String
  priority_mode : String
deriving DecidableEq, Repr

/-- `Assignment.apply_mitigation`: returns whether the two assignments can
coexist, together with the (possibly quality-reduced) values of the two
sides; Python mutates both objects in place. -/
def apply_mitigation (a other : Assignment) (pol : ArchitecturePolicy)
    (env : Environment) : Bool × Assignment × Assignment :=
  let mitigation := pol.interference_mitigation
  if mitigation = "No Mitigation" then (false, a, other)
  else
    let relationship := get_node_relationship a other env
    if mitigation = "Power Control" then
      if relationship = "opposite" then
        (true, { a with quality := a.quality * (7 / 10) },
               { other with quality := other.quality * (7 / 10) })
      else (false, a, other)
    else if mitigation = "Beamforming" then
      if relationship = "opposite" then
        (true, { a with quality := a.quality * (7 / 10) },
               { other with quality := other.quality * (7 / 10) })
      else (false, a, other)
    else if mitigation = "Combination" then
      if relationship = "opposite" then
        (true, { a with quality := a.quality * (7 / 10) },
               { other with quality := other.quality * (7 / 10) })
      else if relationship = "adjacent" then
        (true, { a with quality := a.quality * (1 / 2) },
               { other with quality := other.quality * (1 / 2) })
      else (false, a, other)
    else (false, a, other)

/-- `is_feasible`: the five cross-dimension feasibility rules. -/
def is_feasible (arch : ArchitecturePolicy) : Bool :=
  if arch.licensing_mode = "Dynamic" ∧ arch.sensing_mode = "Database Only" then false
  else if arch.licensing_mode = "Dynamic" ∧ arch.pricing_mode = "Auction Based" then false
  else if arch.coordination_mode = "Decentralized" ∧ arch.pricing_mode = "Auction Based" then false
  else if arch.priority_mode = "Exclusive" ∧
          (arch.licensing_mode ≠ "Manual" ∨ arch.coordination_mode ≠ "Centralized") then false
  else if arch.licensing_mode = "Dynamic" ∧ arch.enforcement_mode = "Passive" then false
  else true

/-- `get_architecture_by_name`: builds the policy and raises `ValueError`
(modelled as `Except.error`) when it is infeasible. -/
def get_architecture_by_name (coord_mode licensing freq_plan interference
    sensing pricing enforcement priority : String) :
    Except String ArchitecturePolicy :=
  let arch : ArchitecturePolicy :=
    ⟨coord_mode, licensing, freq_plan, interference, sensing, pricing,
     enforcement, priority⟩
  if is_feasible arch then Except.ok arch
  else Except.error "Infeasible architecture combination"

/-- `config/parameters.py`. -/
def TOTAL_BANDWIDTH_MHZ : Nat := 600

/-- `config/parameters.py`. -/
def FREQ_BASE_MHZ : Nat := 37000

/-- The subset of `core/metrics.py`'s `MetricsCollector` the claims concern. -/
structure MetricsCollector where
  requests_total : Nat
  requests_denied : Nat
deriving DecidableEq, Repr

/-- The assignment store of `SpectrumManager`: the `active` list and the
`square_to_assignments` index (a Python `defaultdict(list)`, modelled as a
total function defaulting to `[]`). -/
structure Store where
  active : List Assignment
  square_to_assignments : Nat → List Assignment

/-- The mutable state of a `SpectrumManager` (scoped to what the claims use). -/
structure ManagerState where
  store : Store
  next_assignment_id : Nat
  metrics : MetricsCollector

def initState : ManagerState :=
  { store := { active := [], square_to_assignments := fun _ => [] },
    next_assignment_id := 0,
    metrics := { requests_total := 0, requests_denied := 0 } }

/-- `SpectrumManager.__init__`: the Exclusive-mode band partitions, one
contiguous third of the band per device class (`dict.get` modelled as an
`Option`-valued lookup). -/
def band_partitions (pol : ArchitecturePolicy) (device : String) :
    Option (Nat × Nat) :=
  if pol.priority_mode = "Exclusive" then
    if device = "5G" then
      some (FREQ_BASE_MHZ, FREQ_BASE_MHZ + TOTAL_BANDWIDTH_MHZ / 3)
    else if device = "IoT" then
      some (FREQ_BASE_MHZ + TOTAL_BANDWIDTH_MHZ / 3,
            FREQ_BASE_MHZ + 2 * (TOTAL_BANDWIDTH_MHZ / 3))
    else if device = "Federal" then
      some (FREQ_BASE_MHZ + 2 * (TOTAL_BANDWIDTH_MHZ / 3),
            FREQ_BASE_MHZ + TOTAL_BANDWIDTH_MHZ)
    else none
  else none

/-- `SpectrumManager.__init__`: renewal interval per licensing mode;
`Manual`'s `float('inf')` (never due) is modelled by `none`. -/
def query_interval (pol : ArchitecturePolicy) : Option Nat :=
  if pol.licensing_mode = "Manual" then none
  else if pol.licensing_mode = "Semi-Dynamic" then some 1440
  else some 1

/-- `SpectrumManager._get_priority_tier`. -/
def get_priority_tier (pol : ArchitecturePolicy) (device_type : String) : Nat :=
  if pol.priority_mode = "Hierarchical" then
    if device_type = "Federal" then 0
    else if device_type = "5G" then 1
    else 2
  else 0

/-- `SpectrumManager._add_assignment`: append to `active` and to every
covered square's index list. -/
def add_assignment (env : Environment) (s : Store) (a : Assignment) : Store :=
  let node := env.nodes.getD a.node_id defaultNode
  { active := s.active ++ [a],
    square_to_assignments := fun sq =>
      if sq ∈ node.covered_squares then s.square_to_assignments sq ++ [a]
      else s.square_to_assignments sq }

/-- `SpectrumManager._remove_assignment`: remove the first occurrence from
`active` (if present) and from every covered square's index list
(`if x in l: l.remove(x)` is exactly `List.erase`). -/
def remove_assignment (env : Environment) (s : Store) (a : Assignment) : Store :=
  let node := env.nodes.getD a.node_id defaultNode
  { active := s.active.erase a,
    square_to_assignments := fun sq =>
      if sq ∈ node.covered_squares then (s.square_to_assignments sq).erase a
      else s.square_to_assignments sq }

/-- In-place mutation of the (unique) stored assignment with id `i`:
Python mutates the shared object, which is aliased by `active` and by every
index list it belongs to. -/
def setAssignment (s : Store) (i : Nat) (a' : Assignment) : Store :=
  { active := s.active.map (fun x => if x.assignment_id = i then a' else x),
    square_to_assignments := fun sq =>
      (s.square_to_assignments sq).map (fun x => if x.assignment_id = i then a' else x) }

/-- `SpectrumRequest` (`models/request.py`); the engine-written outcome
fields (`is_assigned`, `reject_reason`, trace) are returned by the admission
function instead of being stored. -/
structure SpectrumRequest where
  req_id : Nat
  arrival_time : Nat
  node_id : Nat
  requested_bw : Nat
  device_type : String
deriving DecidableEq, Repr

/-- Tiling of `[part.1, part.2)` by `block_size`-wide blocks
(the `while start_freq + block_size <= part[1]` loop). -/
def tileBlocks (part : Nat × Nat) (block_size : Nat) : List (Nat × Nat) :=
  (List.range ((part.2 - part.1) / block_size)).map
    (fun k => (part.1 + block_size * k, part.1 + block_size * (k + 1)))

/-- `SpectrumManager._generate_frequency_candidates`, before the final
`random.shuffle` (the shuffle is modelled by letting the admission function
take an arbitrary ordering of these candidates). -/
def generate_frequency_candidates (pol : ArchitecturePolicy)
    (req : SpectrumRequest) : List (Nat × Nat) :=
  if pol.freq_plan = "Large Blocks" then
    if pol.priority_mode = "Exclusive" then
      match band_partitions pol req.device_type with
      | some part => tileBlocks part 200
      | none => []
    else tileBlocks (FREQ_BASE_MHZ, FREQ_BASE_MHZ + TOTAL_BANDWIDTH_MHZ) 200
  else if pol.freq_plan = "Sub Channels" then
    let channel_size := 40
    let num_channels := (req.requested_bw + channel_size - 1) / channel_size
    let total_channels := TOTAL_BANDWIDTH_MHZ / channel_size
    if pol.priority_mode = "Exclusive" then
      match band_partitions pol req.device_type with
      | some part =>
        let part_channels := (part.2 - part.1) / channel_size
        ((List.range (part_channels - num_channels + 1)).map (fun start_ch =>
          (part.1 + start_ch * channel_size,
           part.1 + start_ch * channel_size + num_channels * channel_size))).filter
          (fun c => c.2 ≤ part.2)
      | none => []
    else
      ((List.range (total_channels - num_channels + 1)).map (fun start_ch =>
        (FREQ_BASE_MHZ + start_ch * channel_size,
         FREQ_BASE_MHZ + start_ch * channel_size + num_channels * channel_size))).filter
        (fun c => c.2 ≤ FREQ_BASE_MHZ + TOTAL_BANDWIDTH_MHZ)
  else
    if pol.priority_mode = "Exclusive" then
      match band_partitions pol req.device_type with
      | some part =>
        (List.range (part.2 - req.requested_bw + 1 - part.1)).map
          (fun k => (part.1 + k, part.1 + k + req.requested_bw))
      | none => []
    else
      (List.range (FREQ_BASE_MHZ + TOTAL_BANDWIDTH_MHZ - req.requested_bw + 1
          - FREQ_BASE_MHZ)).map
        (fun k => (FREQ_BASE_MHZ + k, FREQ_BASE_MHZ + k + req.requested_bw))

/-- Centralized conflict scope (`process_arrivals`): every assignment
indexed under any square covered by any node of the topology. -/
def centralized_conflicts (env : Environment) (s : Store) : List Assignment :=
  env.nodes.flatMap (fun n =>
    n.covered_squares.flatMap (fun sq => s.square_to_assignments sq))

/-- De-duplication by `id(assignment)` (object identity, represented here by
`assignment_id`), as done with the `seen_assignments` set. -/
def dedupById : List Assignment → List Nat → List Assignment
  | [], _ => []
  | a :: rest, seen =>
    if a.assignment_id ∈ seen then dedupById rest seen
    else a :: dedupById rest (a.assignment_id :: seen)

/-- Decentralized conflict scope (`process_arrivals`): only assignments made
by the requesting node itself and its direct neighbors. -/
def decentralized_conflicts (env : Environment) (s : Store) (node_id : Nat) :
    List Assignment :=
  let neighbor_ids := node_id :: get_neighbors env node_id
  dedupById
    (neighbor_ids.flatMap (fun nid =>
      let n := env.nodes.getD nid defaultNode
      n.covered_squares.flatMap (fun sq =>
        (s.square_to_assignments sq).filter (fun a => a.node_id = nid)))) []

/-- Scope selection of `process_arrivals`: centralized coordination checks
the whole topology's index, decentralized only the requesting node and its
direct neighbors. -/
def conflict_scope (env : Environment) (s : Store) (node_id : Nat)
    (use_centralized : Bool) : List Assignment :=
  if use_centralized then centralized_conflicts env s
  else decentralized_conflicts env s node_id

/-- The post-preemption re-test (`process_arrivals`): does any assignment of
the updated scope list still conflict with the candidate? -/
def stillConflictAfter (env : Environment) (temp : Assignment)
    (pcs : List Assignment) : Bool :=
  pcs.any (fun other => conflicts_with temp other env)

/-- The conflict-resolution loop of `process_arrivals` for one candidate:
walks the scope list (`possible_conflicts`), de-duplicating by object id.
Returns `(conflict, temp, store)` — the failure flag, the candidate value
(its quality is mutated by successful mitigation) and the store (mutated by
preemption removals and by mitigation of the incumbents).  `allPcs` is the
full `possible_conflicts` snapshot used by the post-preemption re-test.
The `mitigated_conflicts` bookkeeping set is omitted (no claim concerns it),
and the dead `preempted_assignment` variable of the source is dropped. -/
def scanConflicts (env : Environment) (pol : ArchitecturePolicy)
    (allPcs : List Assignment) :
    List Assignment → List Nat → Assignment → Store →
    Bool × Assignment × Store
  | [], _, temp, s => (false, temp, s)
  | a :: rest, seen, temp, s =>
    if a.assignment_id ∈ seen then scanConflicts env pol allPcs rest seen temp s
    else
      let seen' := a.assignment_id :: seen
      if conflicts_with temp a env then
        if pol.priority_mode = "Hierarchical" ∧ temp.priority_tier < a.priority_tier then
          let s' := remove_assignment env s a
          if stillConflictAfter env temp (allPcs.filter (fun x => x ≠ a)) then
            (true, temp, s')
          else scanConflicts env pol allPcs rest seen' temp s'
        else if pol.priority_mode = "Hierarchical" ∧ temp.priority_tier > a.priority_tier then
          (true, temp, s)
        else
          let mitigated :=
            if pol.interference_mitigation ≠ "No Mitigation" then
              apply_mitigation temp a pol env
            else (false, temp, a)
          if mitigated.1 then
            scanConflicts env pol allPcs rest seen' mitigated.2.1
              (setAssignment s a.assignment_id mitigated.2.2)
          else
            if temp.priority_tier < a.priority_tier then
              let s' := remove_assignment env s a
              if stillConflictAfter env temp (allPcs.filter (fun x => x ≠ a)) then
                (true, temp, s')
              else scanConflicts env pol allPcs rest seen' temp s'
            else (true, temp, s)
      else scanConflicts env pol allPcs rest seen' temp s

/-- The candidate loop of `process_arrivals` for one request: try each
(shuffled) candidate in order; grant on the first conflict-free one, deny
after the list is exhausted.  Returns the updated state and whether the
request was granted. -/
def tryCandidates (env : Environment) (pol : ArchitecturePolicy)
    (req : SpectrumRequest) (use_centralized : Bool) (current_tick : Nat) :
    List (Nat × Nat) → ManagerState → ManagerState × Bool
  | [], st =>
    ({ st with metrics :=
        { requests_total := st.metrics.requests_total + 1,
          requests_denied := st.metrics.requests_denied + 1 } }, false)
  | (fs, fe) :: rest, st =>
    let skip : Bool :=
      decide (pol.priority_mode = "Exclusive") &&
        (match band_partitions pol req.device_type with
         | some part => ! decide (part.1 ≤ fs ∧ fe ≤ part.2)
         | none => false)
    if skip then tryCandidates env pol req use_centralized current_tick rest st
    else
      let temp : Assignment :=
        { assignment_id := st.next_assignment_id, node_id := req.node_id,
          freq_start := fs, freq_end := fe, device_type := req.device_type,
          quality := 1, next_check_tick := none,
          priority_tier := get_priority_tier pol req.device_type }
      let pcs := conflict_scope env st.store req.node_id use_centralized
      let scanned := scanConflicts env pol pcs pcs [] temp st.store
      if scanned.1 then
        tryCandidates env pol req use_centralized current_tick rest
          { st with store := scanned.2.2 }
      else
        let final : Assignment :=
          match query_interval pol with
          | some k =>
            { assignment_id := st.next_assignment_id, node_id := req.node_id,
              freq_start := fs, freq_end := fe, device_type := req.device_type,
              quality := 1, next_check_tick := some (current_tick + k),
              priority_tier := get_priority_tier pol req.device_type }
          | none => scanned.2.1
        ({ store := add_assignment env scanned.2.2 final,
           next_assignment_id := st.next_assignment_id + 1,
           metrics :=
             { requests_total := st.metrics.requests_total + 1,
               requests_denied := st.metrics.requests_denied } }, true)

/-- One request of `process_arrivals`: the Hybrid coordination mode flips a
coin per request (`coin` is the oracle for `random.random() < 0.5`), and the
(shuffled) candidate list is an oracle parameter. -/
def admitRequest (env : Environment) (pol : ArchitecturePolicy)
    (req : SpectrumRequest) (cands : List (Nat × Nat)) (coin : Bool)
    (current_tick : Nat) (st : ManagerState) : ManagerState × Bool :=
  let use_centralized :=
    if pol.coordination_mode = "Hybrid" then coin
    else pol.coordination_mode = "Centralized"
  tryCandidates env pol req use_centralized current_tick cands st

/-- `SpectrumManager.process_arrivals` over a batch of requests, each paired
with its shuffled candidate list and its Hybrid coin. -/
def process_arrivals (env : Environment) (pol : ArchitecturePolicy)
    (reqs : List (SpectrumRequest × List (Nat × Nat) × Bool))
    (current_tick : Nat) (st : ManagerState) : ManagerState :=
  reqs.foldl (fun s r => (admitRequest env pol r.1 r.2.1 r.2.2 current_tick s).1) st

/-- The re-validation scan of `renew_assignments` for one due assignment:
walk the assignments indexed under the node's covered squares, skipping the
assignment itself and de-duplicating by object id; on each raw conflict
attempt mitigation — success mutates both sides' qualities and continues,
failure marks the assignment as unresolved.  Returns
`(conflict, a, store)` with `a` carrying its accumulated quality changes. -/
def renewScan (env : Environment) (pol : ArchitecturePolicy) :
    List Assignment → List Nat → Assignment → Store →
    Bool × Assignment × Store
  | [], _, a, s => (false, a, s)
  | other :: rest, seen, a, s =>
    if other.assignment_id = a.assignment_id ∨ other.assignment_id ∈ seen then
      renewScan env pol rest seen a s
    else
      let seen' := other.assignment_id :: seen
      if conflicts_with a other env then
        let mitigated := apply_mitigation a other pol env
        if mitigated.1 then
          renewScan env pol rest seen' mitigated.2.1
            (setAssignment s other.assignment_id mitigated.2.2)
        else (true, a, s)
      else renewScan env pol rest seen' a s

/-- One iteration of the `renew_assignments` loop for the stored assignment
with id `i`: skip unless its next-check time equals `current_tick`; otherwise
re-validate it against its own covered squares' index lists.  Returns the
updated store and whether the assignment was flagged for revocation.
`ivl` is `query_interval` (never consulted in reachable Manual-mode states,
where every `next_check_tick` is `none`). -/
def renewOne (env : Environment) (pol : ArchitecturePolicy) (current_tick : Nat)
    (s : Store) (i : Nat) : Store × Bool :=
  match s.active.find? (fun x => x.assignment_id = i) with
  | none => (s, false)
  | some a =>
    if a.next_check_tick ≠ some current_tick then (s, false)
    else
      let node := env.nodes.getD a.node_id defaultNode
      let pcs := node.covered_squares.flatMap s.square_to_assignments
      let scanned := renewScan env pol pcs [] a s
      if scanned.1 then (setAssignment scanned.2.2 i scanned.2.1, true)
      else
        (setAssignment scanned.2.2 i
          { scanned.2.1 with
            next_check_tick := some (current_tick + (query_interval pol).getD 0) },
         false)

/-- `SpectrumManager.renew_assignments`: iterate over a snapshot of the
active list; flagged assignments are removed afterwards, each one counted as
a denial (the Dynamic-mode `coord_queries` charging is an omitted metric). -/
def renew_assignments (env : Environment) (pol : ArchitecturePolicy)
    (current_tick : Nat) (st : ManagerState) : ManagerState :=
  let ids := st.store.active.map (fun a => a.assignment_id)
  let pass := ids.foldl
    (fun (acc : Store × List Nat) i =>
      let step := renewOne env pol current_tick acc.1 i
      if step.2 then (step.1, acc.2 ++ [i]) else (step.1, acc.2))
    (st.store, [])
  let store2 := pass.2.foldl
    (fun (s : Store) i =>
      match s.active.find? (fun x => x.assignment_id = i) with
      | some a => remove_assignment env s a
      | none => s)
    pass.1
  { store := store2,
    next_assignment_id := st.next_assignment_id,
    metrics :=
      { requests_total := st.metrics.requests_total,
        requests_denied := st.metrics.requests_denied + pass.2.length } }

/-- Engine histories: states reachable from a freshly constructed
`SpectrumManager` by any interleaving of `process_arrivals` batches and
`renew_assignments` passes. -/
inductive Reachable (env : Environment) (pol : ArchitecturePolicy) :
    ManagerState → Prop
  | init : Reachable env pol initState
  | arrivals {st} (reqs : List (SpectrumRequest × List (Nat × Nat) × Bool))
      (current_tick : Nat) (h : Reachable env pol st) :
      Reachable env pol (process_arrivals env pol reqs current_tick st)
  | renew {st} (current_tick : Nat) (h : Reachable env pol st) :
      Reachable env pol (renew_assignments env pol current_tick st)

/-! ## Concrete instances used to exercise the engine on the scenarios the
claims describe.  `env1` is the single-square environment of
`Environment(1, 1)`: four nodes all covering square 0, with nodes 0/3 and
1/2 diagonally opposite. -/

def env1 : Environment := Environment.make 1 1

def polPC : ArchitecturePolicy :=
  ⟨"Centralized", "Semi-Dynamic", "Large Blocks", "Power Control",
   "Database Only", "No Cost", "Passive", "Co-Primary"⟩

def polBeam : ArchitecturePolicy :=
  { polPC with interference_mitigation := "Beamforming" }

def polComb : ArchitecturePolicy :=
  { polPC with interference_mitigation := "Combination" }

def polHier : ArchitecturePolicy :=
  ⟨"Centralized", "Semi-Dynamic", "Large Blocks", "No Mitigation",
   "Database Only", "No Cost", "Passive", "Hierarchical"⟩

def polExcl : ArchitecturePolicy :=
  ⟨"Centralized", "Manual", "Large Blocks", "No Mitigation",
   "Database Only", "No Cost", "Passive", "Exclusive"⟩

/-- An assignment on node 0 of `env1`. -/
def asgN0 : Assignment := ⟨1, 0, 37000, 37100, "5G", 1, none, 0⟩

/-- An overlapping assignment on node 3 ("opposite" to node 0), equal tier. -/
def asgN3 : Assignment := ⟨2, 3, 37000, 37100, "5G", 1, none, 0⟩

/-- An overlapping assignment on node 3, lower priority (tier 2). -/
def asgN3lo : Assignment := ⟨3, 3, 37000, 37100, "IoT", 1, none, 2⟩

/-- An overlapping assignment on node 1 ("adjacent" to node 0), equal tier. -/
def asgN1 : Assignment := ⟨4, 1, 37000, 37100, "5G", 1, none, 0⟩

/-- An overlapping assignment on node 1, lower priority (tier 2). -/
def asgN1lo : Assignment := ⟨5, 1, 37000, 37100, "IoT", 1, none, 2⟩

/-- An overlapping second assignment on node 0 ("same" node), equal tier. -/
def asgN0b : Assignment := ⟨6, 0, 37000, 37100, "5G", 1, none, 0⟩

/-- C8 scenario: two full-band incumbents, one "opposite" (node 3) and one
"adjacent" (node 1) to the requesting node 0. -/
def inc8opp : Assignment := ⟨1, 3, 37000, 37600, "IoT", 1, some 500, 0⟩

def inc8adj : Assignment := ⟨2, 1, 37000, 37600, "5G", 1, some 500, 0⟩

def st8 : ManagerState :=
  { store := { active := [inc8opp, inc8adj],
               square_to_assignments := fun sq =>
                 if sq = 0 then [inc8opp, inc8adj] else [] },
    next_assignment_id := 3,
    metrics := { requests_total := 2, requests_denied := 0 } }

def req8 : SpectrumRequest := ⟨10, 0, 0, 60, "5G"⟩

/-- The three Large-Blocks candidates of the 600 MHz band (one shuffle order;
the scenario's outcome is order-independent because both incumbents span the
whole band). -/
def blockCands : List (Nat × Nat) :=
  [(37000, 37200), (37200, 37400), (37400, 37600)]

/-- C9 scenario: a low-tier IoT incumbent and a top-tier Federal incumbent,
both spanning the whole band, facing a Federal request under the
hierarchical discipline with no mitigation. -/
def inc9iot : Assignment := ⟨1, 3, 37000, 37600, "IoT", 1, some 500, 2⟩

def inc9fed : Assignment := ⟨2, 1, 37000, 37600, "Federal", 1, some 500, 0⟩

def st9 : ManagerState :=
  { store := { active := [inc9iot, inc9fed],
               square_to_assignments := fun sq =>
                 if sq = 0 then [inc9iot, inc9fed] else [] },
    next_assignment_id := 3,
    metrics := { requests_total := 2, requests_denied := 0 } }

def req9 : SpectrumRequest := ⟨11, 0, 0, 60, "Federal"⟩

/-- C3 counterexample scenario: assignment 1 (node 0) is due for renewal at
tick 100 and conflicts with assignment 2 (node 3, "opposite", not due);
Power Control mitigation resolves the conflict, multiplying both qualities
by 0.7. -/
def ren3due : Assignment := ⟨1, 0, 37000, 37060, "5G", 1, some 100, 0⟩

def ren3other : Assignment := ⟨2, 3, 37000, 37060, "5G", 1, some 983, 0⟩

def st3 : ManagerState :=
  { store := { active := [ren3due, ren3other],
               square_to_assignments := fun sq =>
                 if sq = 0 then [ren3due, ren3other] else [] },
    next_assignment_id := 3,
    metrics := { requests_total := 2, requests_denied := 0 } }

/-- Well-formedness of reachable stores: pairwise distinct assignment ids,
index lists only hold active assignments, and index lists repeat no id.
The engine guarantees this because ids are allocated sequentially and
`_add_assignment`/`_remove_assignment` keep the index aligned with `active`. -/
def StoreWF (s : Store) : Prop :=
  (s.active.map (fun a => a.assignment_id)).Nodup ∧
  (∀ sq, ∀ x ∈ s.square_to_assignments sq, x ∈ s.active) ∧
  (∀ sq, ((s.square_to_assignments sq).map (fun a => a.assignment_id)).Nodup)

/-- `y` agrees with `x` on every field except possibly `quality` (the only
field `apply_mitigation` writes). -/
def sameButQuality (x y : Assignment) : Prop :=
  y.assignment_id = x.assignment_id ∧ y.node_id = x.node_id ∧
  y.freq_start = x.freq_start ∧ y.freq_end = x.freq_end ∧
  y.device_type = x.device_type ∧ y.next_check_tick = x.next_check_tick ∧
  y.priority_tier = x.priority_tier

/-- `y` agrees with `x` on every field except possibly `quality` and
`next_check_tick` — the only two fields the engine ever writes in place. -/
def immEq (x y : Assignment) : Prop :=
  y.assignment_id = x.assignment_id ∧ y.node_id = x.node_id ∧
  y.freq_start = x.freq_start ∧ y.freq_end = x.freq_end ∧
  y.device_type = x.device_type ∧ y.priority_tier = x.priority_tier

/-- An elementwise predicate holding of every assignment stored in the
active list and in every index list. -/
def StorePred (G : Assignment → Prop) (s : Store) : Prop :=
  (∀ x ∈ s.active, G x) ∧ ∀ sq, ∀ x ∈ s.square_to_assignments sq, G x

/-- Relative to a pre-admission state `st`, a stored assignment either keeps
the id and next-check time of some assignment already active in `st`, or is
a fresh grant (its id is at least `st`'s allocation counter).  Admission
never moves an existing assignment's next-check time. -/
def TracedNextCheck (st : ManagerState) (x : Assignment) : Prop :=
  (∃ y ∈ st.store.active, y.assignment_id = x.assignment_id ∧
    y.next_check_tick = x.next_check_tick) ∨
  st.next_assignment_id ≤ x.assignment_id

/-- The counter invariant maintained by the engine: every revocation or
denial is matched by an earlier grant, expressed as
`denied + #active ≤ total`, together with the id-freshness facts that make
the store's bookkeeping exact. -/
def EngineInv (st : ManagerState) : Prop :=
  st.metrics.requests_denied + st.store.active.length ≤ st.metrics.requests_total ∧
  (st.store.active.map (fun a => a.assignment_id)).Nodup ∧
  ∀ a ∈ st.store.active, a.assignment_id < st.next_assignment_id

/-- A policy rejected by feasibility rule 4: Exclusive priority with
Dynamic licensing. -/
def polExclBad : ArchitecturePolicy :=
  { polExcl with licensing_mode := "Dynamic" }

/-- An IoT request used to exercise the Exclusive-mode partitioning. -/
def reqExcl : SpectrumRequest := ⟨20, 0, 0, 60, "IoT"⟩

/-! ## Theorems -/

/-- C1 counterexample: with two conflicting equal-tier assignments in the
"opposite" relationship, the Beamforming strategy coexists with quality
factor 0.7 — not the 0.8 the claim states — and with unequal tiers (0
versus 2) it still coexists instead of terminating the lower-priority
side. -/
theorem c1_counterexample :
    (apply_mitigation asgN0 asgN3 polBeam env1 =
      (true, { asgN0 with quality := 7 / 10 }, { asgN3 with quality := 7 / 10 })) ∧
    (7 / 10 : ℚ) ≠ 8 / 10 ∧
    (apply_mitigation asgN0 asgN3lo polBeam env1 =
      (true, { asgN0 with quality := 7 / 10 }, { asgN3lo with quality := 7 / 10 })) := by
  refine ⟨?_, by norm_num, ?_⟩ <;>
    simp +decide [apply_mitigation, get_node_relationship, sharedSquares, env1,
      Environment.make, generate_nodes, polBeam, polPC, asgN0, asgN3, asgN3lo,
      defaultNode]

/-- C1 (amended): under both Power Control and Beamforming, mitigation of a
pair in the "opposite" relationship coexists with quality factor 0.7 applied
multiplicatively to both sides, regardless of priority tiers; for "adjacent"
and "same" relationships mitigation fails under both strategies (no tier
check and no termination is performed by `apply_mitigation`). -/
theorem c1_power_control_beamforming (a other : Assignment)
    (pol : ArchitecturePolicy) (env : Environment)
    (hm : pol.interference_mitigation = "Power Control" ∨
          pol.interference_mitigation = "Beamforming") :
    (get_node_relationship a other env = "opposite" →
      apply_mitigation a other pol env =
        (true, { a with quality := a.quality * (7 / 10) },
               { other with quality := other.quality * (7 / 10) })) ∧
    (get_node_relationship a other env = "adjacent" ∨
       get_node_relationship a other env = "same" →
      apply_mitigation a other pol env = (false, a, other)) := by
  rcases hm with h | h <;>
    refine ⟨fun hrel => ?_, fun hrel => ?_⟩ <;>
    [skip; rcases hrel with hrel | hrel; skip; rcases hrel with hrel | hrel] <;>
    simp [apply_mitigation, h, hrel]

/-- C1 witness: the Power Control strategy applied to the concrete
"opposite" pair `asgN0`/`asgN3` of `env1`. -/
theorem c1_power_control_beamforming_witness :
    apply_mitigation asgN0 asgN3 polPC env1 =
      (true, { asgN0 with quality := asgN0.quality * (7 / 10) },
             { asgN3 with quality := asgN3.quality * (7 / 10) }) :=
  (c1_power_control_beamforming asgN0 asgN3 polPC env1 (Or.inl rfl)).1 (by decide)

/-- C4 counterexample: under the Combination strategy with equal tiers, an
"adjacent" pair coexists with quality factor 0.5 (not 0.65), a "same" pair
fails (it does not coexist at 0.65), and with unequal tiers (0 versus 2) an
"adjacent" pair still coexists instead of failing; no coin is flipped for
the "opposite" case (it is deterministically 0.7). -/
theorem c4_counterexample :
    (apply_mitigation asgN0 asgN1 polComb env1 =
      (true, { asgN0 with quality := 1 / 2 }, { asgN1 with quality := 1 / 2 })) ∧
    (1 / 2 : ℚ) ≠ 65 / 100 ∧
    (apply_mitigation asgN0 asgN0b polComb env1 = (false, asgN0, asgN0b)) ∧
    (apply_mitigation asgN0 asgN1lo polComb env1 =
      (true, { asgN0 with quality := 1 / 2 }, { asgN1lo with quality := 1 / 2 })) ∧
    (apply_mitigation asgN0 asgN3 polComb env1 =
      (true, { asgN0 with quality := 7 / 10 }, { asgN3 with quality := 7 / 10 })) := by
  refine ⟨?_, by norm_num, ?_, ?_, ?_⟩ <;>
    simp +decide [apply_mitigation, get_node_relationship, sharedSquares, env1,
      Environment.make, generate_nodes, polComb, polPC, asgN0, asgN1, asgN0b,
      asgN1lo, asgN3, defaultNode]

/-- C4 (amended): under the Combination strategy, regardless of priority
tiers: an "opposite" pair coexists with factor 0.7 applied to both sides, an
"adjacent" pair coexists with factor 0.5 applied to both sides, and a "same"
pair fails. -/
theorem c4_combination (a other : Assignment) (pol : ArchitecturePolicy)
    (env : Environment) (hm : pol.interference_mitigation = "Combination") :
    (get_node_relationship a other env = "opposite" →
      apply_mitigation a other pol env =
        (true, { a with quality := a.quality * (7 / 10) },
               { other with quality := other.quality * (7 / 10) })) ∧
    (get_node_relationship a other env = "adjacent" →
      apply_mitigation a other pol env =
        (true, { a with quality := a.quality * (1 / 2) },
               { other with quality := other.quality * (1 / 2) })) ∧
    (get_node_relationship a other env = "same" →
      apply_mitigation a other pol env = (false, a, other)) := by
  refine ⟨fun hrel => ?_, fun hrel => ?_, fun hrel => ?_⟩ <;>
    simp [apply_mitigation, hm, hrel]

/-- C4 witness: the Combination strategy applied to the concrete "adjacent"
pair `asgN0`/`asgN1` of `env1`. -/
theorem c4_combination_witness :
    apply_mitigation asgN0 asgN1 polComb env1 =
      (true, { asgN0 with quality := asgN0.quality * (1 / 2) },
             { asgN1 with quality := asgN1.quality * (1 / 2) }) :=
  (c4_combination asgN0 asgN1 polComb env1 rfl).2.1 (by decide)

/-- Feasibility rule 4 in isolation: an Exclusive-priority policy whose
licensing is not Manual or whose coordination is not Centralized is
filtered out. -/
theorem is_feasible_exclusive_rule (arch : ArchitecturePolicy)
    (hex : arch.priority_mode = "Exclusive")
    (hne : arch.licensing_mode ≠ "Manual" ∨ arch.coordination_mode ≠ "Centralized") :
    is_feasible arch = false := by
  unfold is_feasible
  split_ifs with h1 h2 h3 h4 h5
  any_goals rfl
  exact absurd ⟨hex, hne⟩ h4

/-- C7: an ArchitecturePolicy with Exclusive priority whose licensing mode
is not Manual or whose coordination mode is not Centralized is infeasible
and is rejected by the validated constructor `get_architecture_by_name`
with a descriptive fault; conversely, every policy accepted by the
feasibility filter with Exclusive priority has Manual licensing and
Centralized coordination. -/
theorem c7_exclusive_requires_manual_centralized (arch : ArchitecturePolicy)
    (hex : arch.priority_mode = "Exclusive") :
    ((arch.licensing_mode ≠ "Manual" ∨ arch.coordination_mode ≠ "Centralized") →
      is_feasible arch = false ∧
      get_architecture_by_name arch.coordination_mode arch.licensing_mode
        arch.freq_plan arch.interference_mitigation arch.sensing_mode
        arch.pricing_mode arch.enforcement_mode arch.priority_mode =
        Except.error "Infeasible architecture combination") ∧
    (is_feasible arch = true →
      arch.licensing_mode = "Manual" ∧ arch.coordination_mode = "Centralized") := by
  constructor
  · intro hne
    have hf := is_feasible_exclusive_rule arch hex hne
    refine ⟨hf, ?_⟩
    simp [get_architecture_by_name, hf]
  · intro hfeas
    refine ⟨?_, ?_⟩ <;> by_contra hc
    · have := is_feasible_exclusive_rule arch hex (Or.inl hc)
      rw [hfeas] at this
      cases this
    · have := is_feasible_exclusive_rule arch hex (Or.inr hc)
      rw [hfeas] at this
      cases this

/-- C7 witness: `polExclBad` (Exclusive priority, Dynamic licensing) is
rejected, and the feasible `polExcl` indeed has Manual licensing and
Centralized coordination. -/
theorem c7_exclusive_witness :
    (is_feasible polExclBad = false ∧
      get_architecture_by_name polExclBad.coordination_mode
        polExclBad.licensing_mode polExclBad.freq_plan
        polExclBad.interference_mitigation polExclBad.sensing_mode
        polExclBad.pricing_mode polExclBad.enforcement_mode
        polExclBad.priority_mode =
        Except.error "Infeasible architecture combination") ∧
    (polExcl.licensing_mode = "Manual" ∧ polExcl.coordination_mode = "Centralized") :=
  ⟨(c7_exclusive_requires_manual_centralized polExclBad rfl).1 (Or.inl (by decide)),
   (c7_exclusive_requires_manual_centralized polExcl rfl).2 (by decide)⟩

/-- If every scope-list entry is already seen or raw-conflict-free, the
conflict scan reports no conflict and leaves the candidate and store
untouched. -/
theorem scanConflicts_all_clear (env : Environment) (pol : ArchitecturePolicy)
    (allPcs : List Assignment) (l : List Assignment) (seen : List Nat)
    (temp : Assignment) (s : Store)
    (h : ∀ b ∈ l, b.assignment_id ∈ seen ∨ conflicts_with temp b env = false) :
    scanConflicts env pol allPcs l seen temp s = (false, temp, s) := by
  induction l generalizing seen with
  | nil => rfl
  | cons b rest ih =>
    rcases h b (List.mem_cons_self b rest) with hb | hb
    · simp only [scanConflicts]
      rw [if_pos hb]
      exact ih seen (fun x hx => h x (List.mem_cons_of_mem b hx))
    · by_cases hs : b.assignment_id ∈ seen
      · simp only [scanConflicts]
        rw [if_pos hs]
        exact ih seen (fun x hx => h x (List.mem_cons_of_mem b hx))
      · simp only [scanConflicts]
        rw [if_neg hs, if_neg (by simp [hb])]
        exact ih (b.assignment_id :: seen)
          (fun x hx =>
            (h x (List.mem_cons_of_mem b hx)).imp (List.mem_cons_of_mem _) id)

/-- C2: during admission under the hierarchical discipline, when the scan
reaches an unseen in-scope assignment `a` that conflicts with the candidate:
if the candidate's tier is numerically strictly lower (higher priority), `a`
is removed from the store immediately and the candidate is re-tested against
the remaining in-scope snapshot — failing exactly when a further raw
conflict remains there; if the candidate's tier is strictly greater, the
candidate fails immediately with the store (and the candidate's quality)
untouched, i.e. no mitigation is attempted. -/
theorem c2_hierarchical_preemption (env : Environment) (pol : ArchitecturePolicy)
    (allPcs rest : List Assignment) (seen : List Nat) (temp a : Assignment)
    (s : Store)
    (hmode : pol.priority_mode = "Hierarchical")
    (hconf : conflicts_with temp a env = true)
    (hseen : a.assignment_id ∉ seen) :
    (temp.priority_tier < a.priority_tier →
      ((∃ b ∈ allPcs, b ≠ a ∧ conflicts_with temp b env = true) →
        scanConflicts env pol allPcs (a :: rest) seen temp s =
          (true, temp, remove_assignment env s a)) ∧
      ((∀ b ∈ allPcs, b ≠ a → conflicts_with temp b env = false) →
        (∀ b ∈ rest, b ∈ allPcs) →
        scanConflicts env pol allPcs (a :: rest) seen temp s =
          (false, temp, remove_assignment env s a))) ∧
    (a.priority_tier < temp.priority_tier →
      scanConflicts env pol allPcs (a :: rest) seen temp s = (true, temp, s)) := by
  constructor
  · intro htier
    constructor
    · rintro ⟨b, hb, hba, hbc⟩
      have hstill :
          stillConflictAfter env temp (allPcs.filter (fun x => !decide (x = a))) = true := by
        unfold stillConflictAfter
        rw [List.any_eq_true]
        exact ⟨b, List.mem_filter.2 ⟨hb, by simp [hba]⟩, hbc⟩
      simp only [scanConflicts, ne_eq, decide_not]
      rw [if_neg hseen, if_pos hconf, if_pos ⟨hmode, htier⟩, if_pos hstill]
    · intro hall hrest
      have hstill :
          stillConflictAfter env temp (allPcs.filter (fun x => !decide (x = a))) = false := by
        unfold stillConflictAfter
        rw [List.any_eq_false]
        intro b hb
        rcases List.mem_filter.1 hb with ⟨hb1, hb2⟩
        simp [hall b hb1 (by simpa using hb2)]
      simp only [scanConflicts, ne_eq, decide_not]
      rw [if_neg hseen, if_pos hconf, if_pos ⟨hmode, htier⟩, if_neg (by simp [hstill])]
      apply scanConflicts_all_clear
      intro b hb
      by_cases hba : b = a
      · exact Or.inl (by simp [hba])
      · exact Or.inr (hall b (hrest b hb) hba)
  · intro htier
    simp only [scanConflicts]
    rw [if_neg hseen, if_pos hconf,
      if_neg (fun hc => Nat.lt_asymm htier hc.2), if_pos ⟨hmode, htier⟩]

/-- C2 witness: a hierarchical tier-0 candidate against a single conflicting
tier-2 incumbent — the incumbent is preempted and, no further conflict
remaining, the candidate survives the scan. -/
theorem c2_hierarchical_preemption_witness :
    scanConflicts env1 polHier [asgN3lo] [asgN3lo] [] asgN0 st3.store =
      (false, asgN0, remove_assignment env1 st3.store asgN3lo) :=
  ((c2_hierarchical_preemption env1 polHier [asgN3lo] [] [] asgN0 asgN3lo
      st3.store rfl (by decide) (by decide)).1 (by decide)).2
    (by decide) (by decide)

/-- The C3 scenario store is well-formed. -/
theorem st3_store_wf : StoreWF st3.store := by
  refine ⟨by decide, fun sq x hx => ?_, fun sq => ?_⟩
  · by_cases h : sq = 0
    · subst h
      simp [st3] at hx
      rcases hx with h1 | h1 <;> simp [st3, h1]
    · simp [st3, h] at hx
  · by_cases h : sq = 0 <;> simp +decide [st3, h]

/-- C6: on a well-formed store, removing an assignment that is absent from
the active set is a no-op on both the active set and the cell index (no
error is raised — the operation is total), and removing a freshly inserted
assignment exactly restores the original store. -/
theorem c6_remove_idempotent_inverse (env : Environment) (s : Store)
    (a : Assignment) (hwf : StoreWF s) (habs : a ∉ s.active) :
    remove_assignment env s a = s ∧
    remove_assignment env (add_assignment env s a) a = s := by
  have hidx : ∀ sq, a ∉ s.square_to_assignments sq :=
    fun sq h => habs (hwf.2.1 sq a h)
  obtain ⟨act, idx⟩ := s
  constructor
  · simp only [remove_assignment, Store.mk.injEq]
    refine ⟨List.erase_of_not_mem habs, funext fun sq => ?_⟩
    split
    · exact List.erase_of_not_mem (hidx sq)
    · rfl
  · simp only [add_assignment, remove_assignment, Store.mk.injEq]
    constructor
    · rw [List.erase_append_right _ habs]
      simp
    · funext sq
      by_cases h : sq ∈ (env.nodes.getD a.node_id defaultNode).covered_squares
      · simp only [if_pos h]
        rw [List.erase_append_right _ (hidx sq)]
        simp
      · simp only [if_neg h]

/-- C6 witness: removing the absent `asgN0` from the concrete store `st3` is
a no-op, and removing it right after inserting it restores the store. -/
theorem c6_remove_idempotent_inverse_witness :
    remove_assignment env1 st3.store asgN0 = st3.store ∧
    remove_assignment env1 (add_assignment env1 st3.store asgN0) asgN0 = st3.store :=
  c6_remove_idempotent_inverse env1 st3.store asgN0 st3_store_wf (by decide)

/-- C8: admission can permanently degrade an incumbent even though the
request is ultimately denied.  In the concrete scenario `st8` (Co-Primary,
Power Control, centralized): while testing each of the three candidate
blocks, mitigation against the "opposite" incumbent multiplies its stored
quality by 0.7; the candidate then fails on the "adjacent" incumbent, the
request is denied, and the incumbent is left at quality 0.343 — the
reductions are never rolled back.  (The outcome is shuffle-independent:
both incumbents span the whole band.) -/
theorem c8_mitigation_persists_on_denial :
    (admitRequest env1 polPC req8 blockCands true 0 st8).2 = false ∧
    (admitRequest env1 polPC req8 blockCands true 0 st8).1.metrics.requests_denied =
      st8.metrics.requests_denied + 1 ∧
    ((admitRequest env1 polPC req8 blockCands true 0 st8).1.store.active.find?
        (fun x => x.assignment_id = 1)) =
      some { inc8opp with quality := 343 / 1000 } ∧
    inc8opp.quality = 1 ∧ (343 / 1000 : ℚ) < 1 := by
  have hq : (7 / 10 * (7 / 10) * (7 / 10) : ℚ) = 343 / 1000 := by norm_num
  refine ⟨?_, ?_, ?_, rfl, by norm_num⟩ <;>
    simp +decide [hq, admitRequest, tryCandidates, scanConflicts, stillConflictAfter,
      conflict_scope, centralized_conflicts, decentralized_conflicts, dedupById, conflicts_with,
      sharedSquares, apply_mitigation, get_node_relationship, setAssignment,
      remove_assignment, add_assignment, band_partitions, query_interval,
      get_priority_tier, env1, Environment.make, generate_nodes, polPC, st8,
      req8, blockCands, inc8opp, inc8adj, defaultNode, FREQ_BASE_MHZ,
      TOTAL_BANDWIDTH_MHZ]

/-- C9: a denied request is not atomic with respect to the store.  In the
concrete scenario `st9` (Hierarchical, No Mitigation, centralized): testing
a candidate preempts the tier-2 IoT incumbent, the candidate then fails on
the remaining tier-0 Federal incumbent, every other candidate fails the same
way, the request is denied — and the preempted incumbent is never restored. -/
theorem c9_denied_request_not_atomic :
    (admitRequest env1 polHier req9 blockCands true 0 st9).2 = false ∧
    (admitRequest env1 polHier req9 blockCands true 0 st9).1.metrics.requests_denied =
      st9.metrics.requests_denied + 1 ∧
    inc9iot ∈ st9.store.active ∧
    (admitRequest env1 polHier req9 blockCands true 0 st9).1.store.active =
      [inc9fed] := by
  refine ⟨?_, ?_, by decide, ?_⟩ <;>
    simp +decide [admitRequest, tryCandidates, scanConflicts, stillConflictAfter,
      conflict_scope, centralized_conflicts, decentralized_conflicts, dedupById, conflicts_with,
      sharedSquares, apply_mitigation, get_node_relationship, setAssignment,
      remove_assignment, add_assignment, band_partitions, query_interval,
      get_priority_tier, env1, Environment.make, generate_nodes, polHier, st9,
      req9, blockCands, inc9iot, inc9fed, defaultNode, FREQ_BASE_MHZ,
      TOTAL_BANDWIDTH_MHZ]

/-- `sameButQuality` is reflexive. -/
theorem sameButQuality_refl (a : Assignment) : sameButQuality a a :=
  ⟨rfl, rfl, rfl, rfl, rfl, rfl, rfl⟩

/-- `sameButQuality` is transitive. -/
theorem sameButQuality_trans {a b c : Assignment} (h1 : sameButQuality a b)
    (h2 : sameButQuality b c) : sameButQuality a c := by
  obtain ⟨e1, e2, e3, e4, e5, e6, e7⟩ := h1
  obtain ⟨f1, f2, f3, f4, f5, f6, f7⟩ := h2
  exact ⟨f1.trans e1, f2.trans e2, f3.trans e3, f4.trans e4, f5.trans e5,
    f6.trans e6, f7.trans e7⟩

/-- `apply_mitigation` only ever writes the `quality` field of either side. -/
theorem apply_mitigation_sameButQuality (a other : Assignment)
    (pol : ArchitecturePolicy) (env : Environment) :
    sameButQuality a (apply_mitigation a other pol env).2.1 ∧
    sameButQuality other (apply_mitigation a other pol env).2.2 := by
  simp only [apply_mitigation]
  split_ifs <;> exact ⟨⟨rfl, rfl, rfl, rfl, rfl, rfl, rfl⟩,
    ⟨rfl, rfl, rfl, rfl, rfl, rfl, rfl⟩⟩

/-- The conflict scan only ever writes the candidate's `quality` field. -/
theorem scanConflicts_temp_sameButQuality (env : Environment)
    (pol : ArchitecturePolicy) (allPcs : List Assignment)
    (l : List Assignment) :
    ∀ (seen : List Nat) (temp : Assignment) (s : Store),
      sameButQuality temp (scanConflicts env pol allPcs l seen temp s).2.1 := by
  induction l with
  | nil => intro seen temp s; exact sameButQuality_refl temp
  | cons a rest ih =>
    intro seen temp s
    simp only [scanConflicts]
    split_ifs <;>
      first
        | exact sameButQuality_refl _
        | exact ih _ _ _
        | exact sameButQuality_trans
            (apply_mitigation_sameButQuality temp a pol env).1 (ih _ _ _)

/-- Under Exclusive priority, a device class outside the three partitions
gets no frequency candidates at all. -/
theorem gen_empty_of_no_partition (pol : ArchitecturePolicy)
    (req : SpectrumRequest) (hex : pol.priority_mode = "Exclusive")
    (hp : band_partitions pol req.device_type = none) :
    generate_frequency_candidates pol req = [] := by
  simp [generate_frequency_candidates, hex, hp]

/-- Exclusive-mode partition containment for the candidate loop: if the
request is granted from candidates drawn from the generator, the freshly
granted assignment's interval lies inside the partition of its device
class. -/
theorem tryCandidates_exclusive_partition (env : Environment)
    (pol : ArchitecturePolicy) (req : SpectrumRequest) (uc : Bool) (tick : Nat)
    (cands : List (Nat × Nat)) (st : ManagerState)
    (hex : pol.priority_mode = "Exclusive")
    (hc : ∀ c ∈ cands, c ∈ generate_frequency_candidates pol req)
    (hg : (tryCandidates env pol req uc tick cands st).2 = true) :
    ∃ part, band_partitions pol req.device_type = some part ∧
      ∃ a ∈ (tryCandidates env pol req uc tick cands st).1.store.active,
        a.assignment_id = st.next_assignment_id ∧
        part.1 ≤ a.freq_start ∧ a.freq_end ≤ part.2 := by
  induction cands generalizing st with
  | nil => exact absurd hg (by simp [tryCandidates])
  | cons c rest ih =>
    obtain ⟨fs, fe⟩ := c
    match hp : band_partitions pol req.device_type with
    | none =>
      exact absurd (hc (fs, fe) (List.mem_cons_self _ _))
        (by rw [gen_empty_of_no_partition pol req hex hp]; simp)
    | some part =>
      refine ⟨part, rfl, ?_⟩
      by_cases hin : part.1 ≤ fs ∧ fe ≤ part.2
      · have hskip :
            (decide (pol.priority_mode = "Exclusive") &&
              (match band_partitions pol req.device_type with
               | some part => ! decide (part.1 ≤ fs ∧ fe ≤ part.2)
               | none => false)) = false := by
          rw [hp]
          simp [hin]
        rw [tryCandidates, if_neg (by rw [hskip]; exact Bool.false_ne_true)] at hg ⊢
        simp only [] at hg ⊢
        split at hg <;> rename_i hscan
        · rw [if_pos hscan]
          obtain ⟨p, hpsome, a, ha, hid, hb1, hb2⟩ :=
            ih _ (fun c hc' => hc c (List.mem_cons_of_mem _ hc')) hg
          rw [hp] at hpsome
          obtain rfl : part = p := by injection hpsome
          exact ⟨a, ha, hid, hb1, hb2⟩
        · rw [if_neg hscan]
          have hsbq := scanConflicts_temp_sameButQuality env pol
            (conflict_scope env st.store req.node_id uc)
            (conflict_scope env st.store req.node_id uc) []
            { assignment_id := st.next_assignment_id, node_id := req.node_id,
              freq_start := fs, freq_end := fe, device_type := req.device_type,
              quality := 1, next_check_tick := none,
              priority_tier := get_priority_tier pol req.device_type }
            st.store
          split
          · exact ⟨_, List.mem_append_right _ (List.mem_singleton_self _),
              rfl, hin.1, hin.2⟩
          · exact ⟨_, List.mem_append_right _ (List.mem_singleton_self _),
              hsbq.1, by rw [hsbq.2.2.1]; exact hin.1,
              by rw [hsbq.2.2.2.1]; exact hin.2⟩
      · have hskip :
            (decide (pol.priority_mode = "Exclusive") &&
              (match band_partitions pol req.device_type with
               | some part => ! decide (part.1 ≤ fs ∧ fe ≤ part.2)
               | none => false)) = true := by
          rw [hp]
          simp [hin, hex]
        rw [tryCandidates, if_pos (by rw [hskip])] at hg ⊢
        obtain ⟨p, hpsome, hrest⟩ := ih st (fun c hc' => hc c (List.mem_cons_of_mem _ hc')) hg
        rw [hp] at hpsome
        obtain rfl : part = p := by injection hpsome
        exact hrest

/-- C5: under the Exclusive priority discipline a granted request's freshly
created assignment has its frequency interval fully contained in its device
class's partition (the runtime partition filter plus the generator's
partition restriction guarantee it for every shuffle order), and the
partitions of distinct device classes are pairwise disjoint contiguous
thirds of the band: 5G = [37000, 37200), IoT = [37200, 37400),
Federal = [37400, 37600). -/
theorem c5_exclusive_partition_containment (env : Environment)
    (pol : ArchitecturePolicy) (req : SpectrumRequest)
    (cands : List (Nat × Nat)) (coin : Bool) (tick : Nat) (st : ManagerState)
    (hex : pol.priority_mode = "Exclusive")
    (hc : ∀ c ∈ cands, c ∈ generate_frequency_candidates pol req)
    (hg : (admitRequest env pol req cands coin tick st).2 = true) :
    (∃ part, band_partitions pol req.device_type = some part ∧
      ∃ a ∈ (admitRequest env pol req cands coin tick st).1.store.active,
        a.assignment_id = st.next_assignment_id ∧
        part.1 ≤ a.freq_start ∧ a.freq_end ≤ part.2) ∧
    (∀ d1 d2 p1 p2, d1 ≠ d2 →
      band_partitions pol d1 = some p1 → band_partitions pol d2 = some p2 →
      p1.2 ≤ p2.1 ∨ p2.2 ≤ p1.1) ∧
    band_partitions pol "5G" = some (37000, 37200) ∧
    band_partitions pol "IoT" = some (37200, 37400) ∧
    band_partitions pol "Federal" = some (37400, 37600) := by
  refine ⟨tryCandidates_exclusive_partition env pol req _ tick cands st hex hc hg,
    ?_, ?_, ?_, ?_⟩
  · intro d1 d2 p1 p2 hne h1 h2
    simp [band_partitions, hex, FREQ_BASE_MHZ, TOTAL_BANDWIDTH_MHZ] at h1 h2
    split_ifs at h1 h2 <;> (try cases h1) <;> (try cases h2) <;> simp_all
  all_goals simp [band_partitions, hex, FREQ_BASE_MHZ, TOTAL_BANDWIDTH_MHZ]

/-- C5 witness: an IoT request granted under `polExcl` lands inside the IoT
partition [37200, 37400). -/
theorem c5_exclusive_partition_witness :
    ∃ part, band_partitions polExcl reqExcl.device_type = some part ∧
      ∃ a ∈ (admitRequest env1 polExcl reqExcl [(37200, 37400)] true 0
          initState).1.store.active,
        a.assignment_id = initState.next_assignment_id ∧
        part.1 ≤ a.freq_start ∧ a.freq_end ≤ part.2 :=
  (c5_exclusive_partition_containment env1 polExcl reqExcl [(37200, 37400)]
    true 0 initState rfl (by decide) (by decide)).1

/-- `setAssignment` with an id-preserving replacement keeps the list of
active ids unchanged. -/
theorem setAssignment_active_ids (s : Store) (i : Nat) (a' : Assignment)
    (h : a'.assignment_id = i) :
    (setAssignment s i a').active.map (fun x => x.assignment_id) =
      s.active.map (fun x => x.assignment_id) := by
  simp only [setAssignment, List.map_map]
  apply List.map_congr_left
  intro x hx
  by_cases hxi : x.assignment_id = i <;> simp [hxi, h]

/-- The conflict scan only erases and quality-rewrites stored assignments,
so the resulting active id list is a sublist of the original. -/
theorem scanConflicts_active_ids_sublist (env : Environment)
    (pol : ArchitecturePolicy) (allPcs : List Assignment)
    (l : List Assignment) :
    ∀ (seen : List Nat) (temp : Assignment) (s : Store),
      ((scanConflicts env pol allPcs l seen temp s).2.2.active.map
          (fun x => x.assignment_id)).Sublist
        (s.active.map (fun x => x.assignment_id)) := by
  induction l with
  | nil => intro seen temp s; exact List.Sublist.refl _
  | cons a rest ih =>
    intro seen temp s
    have hmit : ((apply_mitigation temp a pol env).2.2).assignment_id =
        a.assignment_id :=
      (apply_mitigation_sameButQuality temp a pol env).2.1
    have herase :
        ((remove_assignment env s a).active.map (fun x => x.assignment_id)).Sublist
          (s.active.map (fun x => x.assignment_id)) :=
      List.Sublist.map _ (List.erase_sublist a s.active)
    simp only [scanConflicts]
    split_ifs <;>
      first
        | exact ih _ _ _
        | exact List.Sublist.refl _
        | exact herase
        | exact (ih _ _ _).trans herase
        | exact (setAssignment_active_ids s a.assignment_id _ hmit) ▸ ih _ _ _
        | exact (setAssignment_active_ids s a.assignment_id _ rfl) ▸ ih _ _ _

/-- Length form of `scanConflicts_active_ids_sublist`. -/
theorem scanConflicts_active_length_le (env : Environment)
    (pol : ArchitecturePolicy) (allPcs l : List Assignment) (seen : List Nat)
    (temp : Assignment) (s : Store) :
    (scanConflicts env pol allPcs l seen temp s).2.2.active.length ≤
      s.active.length := by
  have := (scanConflicts_active_ids_sublist env pol allPcs l seen temp s).length_le
  simpa using this

/-- Membership form: every surviving id was an id of the input store. -/
theorem scanConflicts_active_ids_subset (env : Environment)
    (pol : ArchitecturePolicy) (allPcs l : List Assignment) (seen : List Nat)
    (temp : Assignment) (s : Store) :
    ∀ x ∈ (scanConflicts env pol allPcs l seen temp s).2.2.active,
      ∃ y ∈ s.active, y.assignment_id = x.assignment_id := by
  intro x hx
  have hsub := scanConflicts_active_ids_sublist env pol allPcs l seen temp s
  have : x.assignment_id ∈ s.active.map (fun x => x.assignment_id) :=
    hsub.subset (List.mem_map_of_mem _ hx)
  obtain ⟨y, hy, hyx⟩ := List.mem_map.1 this
  exact ⟨y, hy, hyx⟩

/-- Granting appends one fresh-id assignment, adds one to the request total,
and leaves denials unchanged: the counter invariant survives. -/
theorem EngineInv_grant (env : Environment) (st : ManagerState)
    (s' : Store) (final : Assignment)
    (hlen : s'.active.length ≤ st.store.active.length)
    (hnd : (s'.active.map (fun x => x.assignment_id)).Nodup)
    (hsub : ∀ x ∈ s'.active, ∃ y ∈ st.store.active,
      y.assignment_id = x.assignment_id)
    (hfin : final.assignment_id = st.next_assignment_id)
    (hinv : EngineInv st) :
    EngineInv { store := add_assignment env s' final,
                next_assignment_id := st.next_assignment_id + 1,
                metrics := { requests_total := st.metrics.requests_total + 1,
                             requests_denied := st.metrics.requests_denied } } := by
  obtain ⟨hsum, _, hfresh⟩ := hinv
  refine ⟨?_, ?_, ?_⟩
  · simp only [add_assignment, List.length_append, List.length_singleton]
    omega
  · simp only [add_assignment, List.map_append, List.map_cons, List.map_nil]
    rw [List.nodup_append]
    refine ⟨hnd, List.nodup_singleton _, ?_⟩
    intro i hi hi2
    obtain ⟨x, hx, hxid⟩ := List.mem_map.1 hi
    obtain ⟨y, hy, hyx⟩ := hsub x hx
    have hlt : i < st.next_assignment_id := by
      rw [← hxid, ← hyx]
      exact hfresh y hy
    have : i = final.assignment_id := by
      simpa using hi2
    rw [this, hfin] at hlt
    exact absurd hlt (Nat.lt_irrefl _)
  · intro x hx
    simp only [add_assignment] at hx
    show x.assignment_id < st.next_assignment_id + 1
    rcases List.mem_append.1 hx with hx | hx
    · obtain ⟨y, hy, hyx⟩ := hsub x hx
      have := hfresh y hy
      omega
    · have : x = final := by simpa using hx
      rw [this, hfin]
      exact Nat.lt_succ_self _
/-- The candidate loop preserves the engine's counter invariant. -/
theorem tryCandidates_EngineInv (env : Environment) (pol : ArchitecturePolicy)
    (req : SpectrumRequest) (uc : Bool) (tick : Nat)
    (cands : List (Nat × Nat)) :
    ∀ (st : ManagerState), EngineInv st →
      EngineInv (tryCandidates env pol req uc tick cands st).1 := by
  induction cands with
  | nil =>
    intro st hinv
    obtain ⟨hsum, hnd, hfresh⟩ := hinv
    refine ⟨?_, hnd, hfresh⟩
    simp only [tryCandidates]
    omega
  | cons c rest ih =>
    intro st hinv
    obtain ⟨fs, fe⟩ := c
    simp only [tryCandidates]
    split
    · exact ih st hinv
    · obtain ⟨hsum, hnd, hfresh⟩ := hinv
      split
      · -- candidate failed: recurse on the scanned store
        apply ih
        refine ⟨?_, ?_, ?_⟩
        · have hle := scanConflicts_active_length_le env pol
            (conflict_scope env st.store req.node_id uc)
            (conflict_scope env st.store req.node_id uc) []
            { assignment_id := st.next_assignment_id, node_id := req.node_id,
              freq_start := fs, freq_end := fe, device_type := req.device_type,
              quality := 1, next_check_tick := none,
              priority_tier := get_priority_tier pol req.device_type }
            st.store
          simp only []
          omega
        · exact (scanConflicts_active_ids_sublist env pol _ _ [] _ st.store).nodup hnd
        · intro x hx
          obtain ⟨y, hy, hyx⟩ :=
            scanConflicts_active_ids_subset env pol _ _ [] _ st.store x hx
          exact hyx ▸ hfresh y hy
      · -- granted: one new assignment carrying the fresh id
        apply EngineInv_grant env st
        · exact scanConflicts_active_length_le env pol _ _ [] _ st.store
        · exact (scanConflicts_active_ids_sublist env pol _ _ [] _ st.store).nodup hnd
        · exact scanConflicts_active_ids_subset env pol _ _ [] _ st.store
        · split
          · rfl
          · exact (scanConflicts_temp_sameButQuality env pol _ _ [] _ st.store).1
        · exact ⟨hsum, hnd, hfresh⟩

/-- The renewal scan only ever writes the re-validated assignment's
`quality` field. -/
theorem renewScan_self_sameButQuality (env : Environment)
    (pol : ArchitecturePolicy) (l : List Assignment) :
    ∀ (seen : List Nat) (a : Assignment) (s : Store),
      sameButQuality a (renewScan env pol l seen a s).2.1 := by
  induction l with
  | nil => intro seen a s; exact sameButQuality_refl a
  | cons o rest ih =>
    intro seen a s
    simp only [renewScan]
    split_ifs <;>
      first
        | exact sameButQuality_refl _
        | exact ih _ _ _
        | exact sameButQuality_trans
            (apply_mitigation_sameButQuality a o pol env).1 (ih _ _ _)

/-- The renewal scan never inserts or removes stored assignments: the active
id list is unchanged. -/
theorem renewScan_active_ids (env : Environment) (pol : ArchitecturePolicy)
    (l : List Assignment) :
    ∀ (seen : List Nat) (a : Assignment) (s : Store),
      (renewScan env pol l seen a s).2.2.active.map (fun x => x.assignment_id) =
        s.active.map (fun x => x.assignment_id) := by
  induction l with
  | nil => intro seen a s; rfl
  | cons o rest ih =>
    intro seen a s
    have hmit : ((apply_mitigation a o pol env).2.2).assignment_id =
        o.assignment_id :=
      (apply_mitigation_sameButQuality a o pol env).2.1
    simp only [renewScan]
    split_ifs <;>
      first
        | rfl
        | exact ih _ _ _
        | exact (ih _ _ _).trans (setAssignment_active_ids s o.assignment_id _ hmit)

/-- One renewal-loop iteration never inserts or removes stored assignments. -/
theorem renewOne_active_ids (env : Environment) (pol : ArchitecturePolicy)
    (tick : Nat) (s : Store) (i : Nat) :
    (renewOne env pol tick s i).1.active.map (fun x => x.assignment_id) =
      s.active.map (fun x => x.assignment_id) := by
  rw [renewOne]
  split
  · rfl
  · rename_i a hfind
    have haid : a.assignment_id = i := by
      have := List.find?_some hfind
      simpa using this
    have hsbq := renewScan_self_sameButQuality env pol
      ((env.nodes.getD a.node_id defaultNode).covered_squares.flatMap
        s.square_to_assignments) [] a s
    split
    · rfl
    · simp only []
      split
      · refine (setAssignment_active_ids _ i _ ?_).trans
          (renewScan_active_ids env pol _ [] a s)
        exact hsbq.1.trans haid
      · refine (setAssignment_active_ids _ i _ ?_).trans
          (renewScan_active_ids env pol _ [] a s)
        exact hsbq.1.trans haid

/-- The renewal loop phase (before removals) keeps the active id list
unchanged and only ever appends flagged ids that form a sublist of the
processed id list. -/
theorem renew_fold_ids (env : Environment) (pol : ArchitecturePolicy)
    (tick : Nat) (ids : List Nat) :
    ∀ (s : Store) (fl : List Nat),
      ((ids.foldl
          (fun (acc : Store × List Nat) i =>
            let step := renewOne env pol tick acc.1 i
            if step.2 then (step.1, acc.2 ++ [i]) else (step.1, acc.2))
          (s, fl)).1.active.map (fun x => x.assignment_id) =
        s.active.map (fun x => x.assignment_id)) ∧
      ∃ l', (ids.foldl
          (fun (acc : Store × List Nat) i =>
            let step := renewOne env pol tick acc.1 i
            if step.2 then (step.1, acc.2 ++ [i]) else (step.1, acc.2))
          (s, fl)).2 = fl ++ l' ∧ l'.Sublist ids := by
  induction ids with
  | nil => exact fun s fl => ⟨rfl, [], by simp⟩
  | cons i rest ih =>
    intro s fl
    simp only [List.foldl_cons]
    split
    · obtain ⟨hids, l', hl', hsub⟩ := ih (renewOne env pol tick s i).1 (fl ++ [i])
      refine ⟨hids.trans (renewOne_active_ids env pol tick s i), i :: l', ?_, ?_⟩
      · rw [hl']
        simp
      · exact hsub.cons₂ i
    · obtain ⟨hids, l', hl', hsub⟩ := ih (renewOne env pol tick s i).1 fl
      exact ⟨hids.trans (renewOne_active_ids env pol tick s i), l', hl',
        hsub.cons i⟩

/-- Erasing a member commutes with mapping an id projection that repeats no
value on the list. -/
theorem erase_map_of_nodup (l : List Assignment) (a : Assignment)
    (hnd : (l.map (fun x => x.assignment_id)).Nodup) (ha : a ∈ l) :
    (l.erase a).map (fun x => x.assignment_id) =
      (l.map (fun x => x.assignment_id)).erase a.assignment_id := by
  induction l with
  | nil => cases ha
  | cons b rest ih =>
    by_cases hba : b = a
    · subst hba
      simp [List.erase_cons_head]
    · have hmem : a ∈ rest := by
        rcases List.mem_cons.1 ha with h | h
        · exact absurd h.symm hba
        · exact h
      have hne : b.assignment_id ≠ a.assignment_id := by
        intro hcon
        have : b.assignment_id ∈ rest.map (fun x => x.assignment_id) := by
          rw [hcon]
          exact List.mem_map_of_mem _ hmem
        exact (List.nodup_cons.1 hnd).1 this
      rw [List.erase_cons_tail (by simpa using hba), List.map_cons,
        List.map_cons, List.erase_cons_tail (by simpa using hne)]
      rw [ih (List.nodup_cons.1 hnd).2 hmem]

/-- The revocation pass removes exactly one stored assignment per flagged
id: the final active list is a sublist of the input with exactly
`fl.length` fewer entries. -/
theorem removeFold_length (env : Environment) :
    ∀ (fl : List Nat) (s : Store), fl.Nodup →
      (∀ i ∈ fl, i ∈ s.active.map (fun x => x.assignment_id)) →
      (s.active.map (fun x => x.assignment_id)).Nodup →
      (fl.foldl
          (fun (s : Store) i =>
            match s.active.find? (fun x => x.assignment_id = i) with
            | some a => remove_assignment env s a
            | none => s)
          s).active.length + fl.length = s.active.length ∧
      ((fl.foldl
          (fun (s : Store) i =>
            match s.active.find? (fun x => x.assignment_id = i) with
            | some a => remove_assignment env s a
            | none => s)
          s).active).Sublist s.active := by
  intro fl
  induction fl with
  | nil => exact fun s _ _ _ => ⟨rfl, List.Sublist.refl _⟩
  | cons i rest ih =>
    intro s hnd hmem hsnd
    obtain ⟨a, ha, hai⟩ : ∃ a ∈ s.active, a.assignment_id = i := by
      obtain ⟨a, ha, hai⟩ := List.mem_map.1 (hmem i (List.mem_cons_self i rest))
      exact ⟨a, ha, hai⟩
    have hfind : (s.active.find? (fun x => x.assignment_id = i)).isSome := by
      rw [List.find?_isSome]
      exact ⟨a, ha, by simpa using hai⟩
    obtain ⟨b, hb⟩ := Option.isSome_iff_exists.1 hfind
    have hbmem : b ∈ s.active := List.mem_of_find?_eq_some hb
    have hbi : b.assignment_id = i := by
      have := List.find?_some hb
      simpa using this
    have hids' : ((s.active.erase b).map (fun x => x.assignment_id)) =
        (s.active.map (fun x => x.assignment_id)).erase i :=
      hbi ▸ erase_map_of_nodup s.active b hsnd hbmem
    have hlen : (s.active.erase b).length + 1 = s.active.length := by
      rw [List.length_erase_of_mem hbmem]
      have : 0 < s.active.length := List.length_pos_of_mem hbmem
      omega
    have hstep := ih (remove_assignment env s b) (List.nodup_cons.1 hnd).2
      (fun j hj => by
        show j ∈ (s.active.erase b).map (fun x => x.assignment_id)
        rw [hids']
        refine (List.mem_erase_of_ne ?_).2 (hmem j (List.mem_cons_of_mem i hj))
        intro hji
        exact (List.nodup_cons.1 hnd).1 (hji ▸ hj))
      (by
        show ((s.active.erase b).map (fun x => x.assignment_id)).Nodup
        rw [hids']
        exact hsnd.erase i)
    simp only [List.foldl_cons, hb]
    refine ⟨?_, hstep.2.trans (List.erase_sublist b s.active)⟩
    have h1 := hstep.1
    have h2 : (remove_assignment env s b).active.length =
        (s.active.erase b).length := rfl
    simp only [List.length_cons]
    omega

/-- `renew_assignments` preserves the engine's counter invariant: each
revocation both increments `requests_denied` and removes exactly one stored
assignment. -/
theorem renew_EngineInv (env : Environment) (pol : ArchitecturePolicy)
    (tick : Nat) (st : ManagerState) (hinv : EngineInv st) :
    EngineInv (renew_assignments env pol tick st) := by
  obtain ⟨hsum, hnd, hfresh⟩ := hinv
  obtain ⟨hids1, l', hl', hsubl⟩ :=
    renew_fold_ids env pol tick
      (st.store.active.map (fun a => a.assignment_id)) st.store []
  simp only [renew_assignments]
  set pass := (st.store.active.map (fun a => a.assignment_id)).foldl
      (fun (acc : Store × List Nat) i =>
        let step := renewOne env pol tick acc.1 i
        if step.2 then (step.1, acc.2 ++ [i]) else (step.1, acc.2))
      (st.store, []) with hpass
  have hl'2 : pass.2 = l' := by simpa using hl'
  have hndl : l'.Nodup := hsubl.nodup hnd
  have hpasslen : pass.1.active.length = st.store.active.length := by
    have := congrArg List.length hids1
    simpa using this
  have hrf := removeFold_length env l' pass.1 hndl
    (fun i hi => by rw [hids1]; exact hsubl.subset hi)
    (by rw [hids1]; exact hnd)
  rw [hl'2]
  refine ⟨?_, ?_, ?_⟩
  · have h1 := hrf.1
    simp only []
    omega
  · exact ((List.Sublist.map (fun x => x.assignment_id) hrf.2).trans
      (hids1 ▸ List.Sublist.refl _)).nodup hnd
  · intro x hx
    have hx1 : x ∈ pass.1.active := hrf.2.subset hx
    have : x.assignment_id ∈ pass.1.active.map (fun a => a.assignment_id) :=
      List.mem_map_of_mem _ hx1
    rw [hids1] at this
    obtain ⟨y, hy, hyx⟩ := List.mem_map.1 this
    exact hyx ▸ hfresh y hy

/-- `process_arrivals` preserves the engine's counter invariant. -/
theorem process_arrivals_EngineInv (env : Environment)
    (pol : ArchitecturePolicy)
    (reqs : List (SpectrumRequest × List (Nat × Nat) × Bool)) (tick : Nat) :
    ∀ (st : ManagerState), EngineInv st →
      EngineInv (process_arrivals env pol reqs tick st) := by
  induction reqs with
  | nil => exact fun st hinv => hinv
  | cons r rest ih =>
    intro st hinv
    exact ih _ (tryCandidates_EngineInv env pol r.1 _ tick r.2.1 st hinv)

/-- Every reachable engine state satisfies the counter invariant. -/
theorem reachable_EngineInv (env : Environment) (pol : ArchitecturePolicy)
    (st : ManagerState) (h : Reachable env pol st) : EngineInv st := by
  induction h with
  | init => exact ⟨Nat.le_refl 0, List.nodup_nil, fun a ha => absurd ha (List.not_mem_nil a)⟩
  | arrivals reqs tick _ ih => exact process_arrivals_EngineInv env pol reqs tick _ ih
  | renew tick _ ih => exact renew_EngineInv env pol tick _ ih

/-- C10: starting from the zero-initialized state, after every engine
operation (`process_arrivals` batch or `renew_assignments` pass)
`requests_denied ≤ requests_total` holds, so the reported blocking
probability never exceeds 1: a renewal revocation increments
`requests_denied` without touching `requests_total`, but each revoked
assignment's original grant already incremented `requests_total`, which the
strengthened invariant `denied + #active ≤ total` captures. -/
theorem c10_denied_le_total (env : Environment) (pol : ArchitecturePolicy)
    (st : ManagerState) (h : Reachable env pol st) :
    st.metrics.requests_denied ≤ st.metrics.requests_total := by
  have hinv := reachable_EngineInv env pol st h
  have := hinv.1
  omega

/-- C10 witness: the invariant at the freshly initialized engine state. -/
theorem c10_denied_le_total_witness :
    initState.metrics.requests_denied ≤ initState.metrics.requests_total :=
  c10_denied_le_total env1 polPC initState Reachable.init

/-- `sameButQuality` implies `immEq`. -/
theorem immEq_of_sameButQuality {x y : Assignment} (h : sameButQuality x y) :
    immEq x y :=
  ⟨h.1, h.2.1, h.2.2.1, h.2.2.2.1, h.2.2.2.2.1, h.2.2.2.2.2.2⟩

/-- `immEq` is transitive. -/
theorem immEq_trans {a b c : Assignment} (h1 : immEq a b) (h2 : immEq b c) :
    immEq a c := by
  obtain ⟨e1, e2, e3, e4, e5, e6⟩ := h1
  obtain ⟨f1, f2, f3, f4, f5, f6⟩ := h2
  exact ⟨f1.trans e1, f2.trans e2, f3.trans e3, f4.trans e4, f5.trans e5,
    f6.trans e6⟩

/-- `conflicts_with` only reads the frequency interval and the node, so it
is invariant under `immEq` on the left. -/
theorem conflicts_with_congr_left {a a' : Assignment} (o : Assignment)
    (env : Environment) (h : immEq a a') :
    conflicts_with a' o env = conflicts_with a o env := by
  obtain ⟨_, h2, h3, h4, _, _⟩ := h
  simp only [conflicts_with, h2, h3, h4]

/-- `conflicts_with` is invariant under `immEq` on the right. -/
theorem conflicts_with_congr_right (a : Assignment) {o o' : Assignment}
    (env : Environment) (h : immEq o o') :
    conflicts_with a o' env = conflicts_with a o env := by
  obtain ⟨_, h2, h3, h4, _, _⟩ := h
  simp only [conflicts_with, h2, h3, h4]

/-- Nonempty shared squares is symmetric. -/
theorem sharedSquares_isEmpty_symm (n1 n2 : Node) :
    (sharedSquares n1 n2).isEmpty = (sharedSquares n2 n1).isEmpty := by
  rw [Bool.eq_iff_iff]
  simp only [sharedSquares, List.isEmpty_iff, List.filter_eq_nil_iff,
    decide_eq_true_eq]
  constructor
  · intro h
    refine fun s hs2 hs1 => h s hs1 hs2
  · intro h
    refine fun s hs1 hs2 => h s hs2 hs1

/-- The raw conflict predicate is symmetric. -/
theorem conflicts_with_symm (a b : Assignment) (env : Environment) :
    conflicts_with a b env = conflicts_with b a env := by
  simp only [conflicts_with]
  by_cases h1 : a.freq_end ≤ b.freq_start ∨ a.freq_start ≥ b.freq_end
  · rw [if_pos h1, if_pos (by omega)]
  · rw [if_neg h1, if_neg (by omega), sharedSquares_isEmpty_symm]

/-- `apply_mitigation` reads its first argument only through its node (for
the relationship) — the returned verdict and the updated second side are
invariant under `sameButQuality` of the first argument. -/
theorem apply_mitigation_congr_left {aj₀ aj : Assignment} (o : Assignment)
    (pol : ArchitecturePolicy) (env : Environment)
    (h : sameButQuality aj₀ aj) :
    (apply_mitigation aj o pol env).1 = (apply_mitigation aj₀ o pol env).1 ∧
    (apply_mitigation aj o pol env).2.2 = (apply_mitigation aj₀ o pol env).2.2 := by
  have hrel : get_node_relationship aj o env = get_node_relationship aj₀ o env := by
    simp only [get_node_relationship, h.2.1]
  simp only [apply_mitigation, hrel]
  split_ifs <;> exact ⟨rfl, rfl⟩

/-- `setAssignment` preserves any elementwise store predicate satisfied by
the written value. -/
theorem setAssignment_StorePred {G : Assignment → Prop} {s : Store}
    (i : Nat) {a' : Assignment} (ha : G a') (hs : StorePred G s) :
    StorePred G (setAssignment s i a') := by
  constructor
  · intro x hx
    obtain ⟨y, hy, hyx⟩ := List.mem_map.1 hx
    by_cases hyi : y.assignment_id = i
    · rw [← hyx]
      simpa [hyi] using ha
    · rw [← hyx]
      simpa [hyi] using hs.1 y hy
  · intro sq x hx
    obtain ⟨y, hy, hyx⟩ := List.mem_map.1 hx
    by_cases hyi : y.assignment_id = i
    · rw [← hyx]
      simpa [hyi] using ha
    · rw [← hyx]
      simpa [hyi] using hs.2 sq y hy

/-- For a predicate that is vacuous away from id `i`, `setAssignment`
needs nothing from the prior store. -/
theorem setAssignment_StorePred_local {G : Assignment → Prop} (s : Store)
    (i : Nat) {a' : Assignment} (ha : G a')
    (hvac : ∀ x : Assignment, x.assignment_id ≠ i → G x) :
    StorePred G (setAssignment s i a') := by
  constructor
  · intro x hx
    obtain ⟨y, hy, hyx⟩ := List.mem_map.1 hx
    by_cases hyi : y.assignment_id = i
    · rw [← hyx]
      simpa [hyi] using ha
    · rw [← hyx]
      simpa [hyi] using hvac y hyi
  · intro sq x hx
    obtain ⟨y, hy, hyx⟩ := List.mem_map.1 hx
    by_cases hyi : y.assignment_id = i
    · rw [← hyx]
      simpa [hyi] using ha
    · rw [← hyx]
      simpa [hyi] using hvac y hyi

/-- `remove_assignment` preserves any elementwise store predicate. -/
theorem remove_assignment_StorePred {G : Assignment → Prop} {s : Store}
    (env : Environment) (b : Assignment) (hs : StorePred G s) :
    StorePred G (remove_assignment env s b) := by
  constructor
  · intro x hx
    exact hs.1 x (List.mem_of_mem_erase hx)
  · intro sq x hx
    simp only [remove_assignment] at hx
    split at hx
    · exact hs.2 sq x (List.mem_of_mem_erase hx)
    · exact hs.2 sq x hx

/-- `add_assignment` preserves any elementwise store predicate satisfied by
the inserted value. -/
theorem add_assignment_StorePred {G : Assignment → Prop} {s : Store}
    (env : Environment) {f : Assignment} (hf : G f) (hs : StorePred G s) :
    StorePred G (add_assignment env s f) := by
  constructor
  · intro x hx
    rcases List.mem_append.1 hx with hx | hx
    · exact hs.1 x hx
    · rw [List.mem_singleton.1 hx]
      exact hf
  · intro sq x hx
    simp only [add_assignment] at hx
    split at hx
    · rcases List.mem_append.1 hx with hx | hx
      · exact hs.2 sq x hx
      · rw [List.mem_singleton.1 hx]
        exact hf
    · exact hs.2 sq x hx

/-- Membership in a node's flatMapped index lists comes from some index
list. -/
theorem mem_flatMap_idx {s : Store} {o : Assignment} {squares : List Nat}
    (h : o ∈ squares.flatMap s.square_to_assignments) :
    ∃ sq, o ∈ s.square_to_assignments sq := by
  obtain ⟨sq, _, ho⟩ := List.mem_flatMap.1 h
  exact ⟨sq, ho⟩

/-- The renewal scan preserves any elementwise store predicate that is
closed under the quality write that successful mitigation performs on the
conflicting incumbent (expressed against the snapshot value `aj₀` of the
re-validated assignment, whose immutable fields the scan never changes). -/
theorem renewScan_StorePred {G : Assignment → Prop} (env : Environment)
    (pol : ArchitecturePolicy) (aj₀ : Assignment)
    (HW : ∀ o, G o → o.assignment_id ≠ aj₀.assignment_id →
      conflicts_with aj₀ o env = true →
      G ((apply_mitigation aj₀ o pol env).2.2)) (l : List Assignment) :
    ∀ (seen : List Nat) (aj : Assignment) (s : Store),
      sameButQuality aj₀ aj → StorePred G s → (∀ o ∈ l, G o) →
      StorePred G (renewScan env pol l seen aj s).2.2 := by
  induction l with
  | nil => exact fun seen aj s _ hs _ => hs
  | cons o rest ih =>
    intro seen aj s hsbq hs hl
    simp only [renewScan]
    split_ifs with h1 h2 h3
    · exact ih seen aj s hsbq hs (fun x hx => hl x (List.mem_cons_of_mem o hx))
    · have hone : o.assignment_id ≠ aj₀.assignment_id := by
        rw [← hsbq.1]
        exact fun hc => h1 (Or.inl hc)
      have hconf : conflicts_with aj₀ o env = true := by
        rw [← conflicts_with_congr_left o env (immEq_of_sameButQuality hsbq)]
        exact h2
      have hGo := hl o (List.mem_cons_self o rest)
      have hw : G ((apply_mitigation aj o pol env).2.2) := by
        rw [(apply_mitigation_congr_left o pol env hsbq).2]
        exact HW o hGo hone hconf
      exact ih _ _ _
        (sameButQuality_trans hsbq (apply_mitigation_sameButQuality aj o pol env).1)
        (setAssignment_StorePred o.assignment_id hw hs)
        (fun x hx => hl x (List.mem_cons_of_mem o hx))
    · exact hs
    · exact ih _ aj s hsbq hs (fun x hx => hl x (List.mem_cons_of_mem o hx))

/-- One renewal-loop iteration preserves any elementwise store predicate
closed under mitigation writes and under the re-check-time rewrite of the
assignment with the processed id. -/
theorem renewOne_StorePred {G : Assignment → Prop} (env : Environment)
    (pol : ArchitecturePolicy) (tick : Nat) (s : Store) (i : Nat)
    (HW : ∀ aj o, G aj → G o → o.assignment_id ≠ aj.assignment_id →
      conflicts_with aj o env = true →
      G ((apply_mitigation aj o pol env).2.2))
    (HB : ∀ x y, G x → x.assignment_id = i → sameButQuality x y →
      G y ∧ ∀ nc : Option Nat, G { y with next_check_tick := nc })
    (hs : StorePred G s) :
    StorePred G (renewOne env pol tick s i).1 := by
  rw [renewOne]
  split
  · exact hs
  · rename_i a hfind
    have haid : a.assignment_id = i := by
      have := List.find?_some hfind
      simpa using this
    have hGa : G a := hs.1 a (List.mem_of_find?_eq_some hfind)
    split
    · exact hs
    · have hcl : ∀ o ∈ (env.nodes.getD a.node_id defaultNode).covered_squares.flatMap
          s.square_to_assignments, G o := by
        intro o ho
        obtain ⟨sq, hsq⟩ := mem_flatMap_idx ho
        exact hs.2 sq o hsq
      have hscan := renewScan_StorePred env pol a
        (fun o hGo hne hc => HW a o hGa hGo hne hc) _ [] a s
        (sameButQuality_refl a) hs hcl
      have hsbq := renewScan_self_sameButQuality env pol
        ((env.nodes.getD a.node_id defaultNode).covered_squares.flatMap
          s.square_to_assignments) [] a s
      simp only []
      split
      · exact setAssignment_StorePred i ((HB a _ hGa haid hsbq).1) hscan
      · exact setAssignment_StorePred i ((HB a _ hGa haid hsbq).2 _) hscan

/-- The whole renewal loop phase preserves such a predicate. -/
theorem renewFold_StorePred {G : Assignment → Prop} (env : Environment)
    (pol : ArchitecturePolicy) (tick : Nat)
    (HW : ∀ aj o, G aj → G o → o.assignment_id ≠ aj.assignment_id →
      conflicts_with aj o env = true →
      G ((apply_mitigation aj o pol env).2.2)) (ids : List Nat) :
    ∀ (s : Store) (fl : List Nat),
      (∀ i ∈ ids, ∀ x y, G x → x.assignment_id = i → sameButQuality x y →
        G y ∧ ∀ nc : Option Nat, G { y with next_check_tick := nc }) →
      StorePred G s →
      StorePred G ((ids.foldl
        (fun (acc : Store × List Nat) i =>
          let step := renewOne env pol tick acc.1 i
          if step.2 then (step.1, acc.2 ++ [i]) else (step.1, acc.2))
        (s, fl)).1) := by
  induction ids with
  | nil => exact fun s fl _ hs => hs
  | cons i rest ih =>
    intro s fl hB hs
    simp only [List.foldl_cons]
    have hstep : StorePred G (renewOne env pol tick s i).1 :=
      renewOne_StorePred env pol tick s i HW
        (hB i (List.mem_cons_self i rest)) hs
    split <;>
      exact ih _ _ (fun j hj => hB j (List.mem_cons_of_mem i hj)) hstep

/-- The revocation pass preserves any elementwise store predicate. -/
theorem removeFold_StorePred {G : Assignment → Prop} (env : Environment) :
    ∀ (fl : List Nat) (s : Store), StorePred G s →
      StorePred G (fl.foldl
        (fun (s : Store) i =>
          match s.active.find? (fun x => x.assignment_id = i) with
          | some a => remove_assignment env s a
          | none => s)
        s) := by
  intro fl
  induction fl with
  | nil => exact fun s hs => hs
  | cons i rest ih =>
    intro s hs
    simp only [List.foldl_cons]
    split
    · exact ih _ (remove_assignment_StorePred env _ hs)
    · exact ih _ hs

/-- On a list with pairwise distinct ids, a member is determined by its id. -/
theorem eq_of_mem_of_id_eq {l : List Assignment} {a x : Assignment}
    (hnd : (l.map (fun z => z.assignment_id)).Nodup) (ha : a ∈ l) (hx : x ∈ l)
    (h : x.assignment_id = a.assignment_id) : x = a := by
  induction l with
  | nil => cases ha
  | cons b rest ih =>
    have hbody := List.nodup_cons.1 hnd
    rcases List.mem_cons.1 ha with hae | hae <;>
      rcases List.mem_cons.1 hx with hxe | hxe
    · rw [hae, hxe]
    · exfalso
      apply hbody.1
      show b.assignment_id ∈ _
      rw [← hae, ← h]
      exact List.mem_map_of_mem _ hxe
    · exfalso
      apply hbody.1
      show b.assignment_id ∈ _
      rw [← hxe, h]
      exact List.mem_map_of_mem _ hae
    · exact ih hbody.2 hae hxe

/-- If some stored assignment carries id `t`, the id lookup finds one. -/
theorem findId_exists {l : List Assignment} {t : Nat}
    (h : t ∈ l.map (fun z => z.assignment_id)) :
    ∃ x, l.find? (fun z => z.assignment_id = t) = some x := by
  have : (l.find? (fun z => z.assignment_id = t)).isSome := by
    rw [List.find?_isSome]
    obtain ⟨x, hx, hxt⟩ := List.mem_map.1 h
    exact ⟨x, hx, by simpa using hxt⟩
  exact Option.isSome_iff_exists.1 this

/-- Erasing an element with a different id does not change an id lookup. -/
theorem find?_erase_of_id_ne (l : List Assignment) (b : Assignment) (t : Nat)
    (hbt : b.assignment_id ≠ t) :
    (l.erase b).find? (fun z => z.assignment_id = t) =
      l.find? (fun z => z.assignment_id = t) := by
  induction l with
  | nil => rfl
  | cons y rest ih =>
    by_cases hyb : y = b
    · subst hyb
      rw [List.erase_cons_head, List.find?_cons_of_neg _ (by simpa using hbt)]
    · rw [List.erase_cons_tail (by simpa using hyb)]
      by_cases hyt : y.assignment_id = t
      · rw [List.find?_cons_of_pos _ (by simpa using hyt),
          List.find?_cons_of_pos _ (by simpa using hyt)]
      · rw [List.find?_cons_of_neg _ (by simpa using hyt),
          List.find?_cons_of_neg _ (by simpa using hyt)]
        exact ih

/-- The revocation pass does not change the lookup of an id it does not
revoke. -/
theorem removeFold_findId (env : Environment) :
    ∀ (fl : List Nat) (s : Store) (t : Nat), t ∉ fl →
      ((fl.foldl
        (fun (s : Store) i =>
          match s.active.find? (fun x => x.assignment_id = i) with
          | some a => remove_assignment env s a
          | none => s)
        s).active.find? (fun z => z.assignment_id = t)) =
      s.active.find? (fun z => z.assignment_id = t) := by
  intro fl
  induction fl with
  | nil => exact fun s t _ => rfl
  | cons i rest ih =>
    intro s t ht
    have hti : t ≠ i := fun h => ht (h ▸ List.mem_cons_self i rest)
    have htr : t ∉ rest := fun h => ht (List.mem_cons_of_mem i h)
    simp only [List.foldl_cons]
    split
    · rename_i b hb
      have hbi : b.assignment_id = i := by
        have := List.find?_some hb
        simpa using this
      rw [ih _ t htr]
      exact find?_erase_of_id_ne s.active b t (by rw [hbi]; exact fun h => hti h.symm)
    · exact ih _ t htr

/-- After the revocation pass, a revoked id is gone from the store. -/
theorem removeFold_not_mem (env : Environment) :
    ∀ (fl : List Nat) (s : Store) (t : Nat), fl.Nodup →
      (∀ i ∈ fl, i ∈ s.active.map (fun x => x.assignment_id)) →
      (s.active.map (fun x => x.assignment_id)).Nodup → t ∈ fl →
      ∀ x ∈ (fl.foldl
        (fun (s : Store) i =>
          match s.active.find? (fun x => x.assignment_id = i) with
          | some a => remove_assignment env s a
          | none => s)
        s).active, x.assignment_id ≠ t := by
  intro fl
  induction fl with
  | nil => intro s t _ _ _ ht; cases ht
  | cons i rest ih =>
    intro s t hnd hmem hsnd htin x hx
    obtain ⟨b, hb⟩ := findId_exists (hmem i (List.mem_cons_self i rest))
    have hbmem : b ∈ s.active := List.mem_of_find?_eq_some hb
    have hbi : b.assignment_id = i := by
      have := List.find?_some hb
      simpa using this
    have hids' : ((s.active.erase b).map (fun x => x.assignment_id)) =
        (s.active.map (fun x => x.assignment_id)).erase i :=
      hbi ▸ erase_map_of_nodup s.active b hsnd hbmem
    have hcond2 : ∀ j ∈ rest, j ∈ (remove_assignment env s b).active.map
        (fun x => x.assignment_id) := by
      intro j hj
      show j ∈ (s.active.erase b).map (fun x => x.assignment_id)
      rw [hids']
      refine (List.mem_erase_of_ne ?_).2 (hmem j (List.mem_cons_of_mem i hj))
      intro hji
      exact (List.nodup_cons.1 hnd).1 (hji ▸ hj)
    have hcond3 : ((remove_assignment env s b).active.map
        (fun x => x.assignment_id)).Nodup := by
      show ((s.active.erase b).map (fun x => x.assignment_id)).Nodup
      rw [hids']
      exact hsnd.erase i
    rcases List.mem_cons.1 htin with hti | hti
    · -- t = i: the erased id never reappears
      subst hti
      have hxsub : x ∈ (remove_assignment env s b).active := by
        have hsub := (removeFold_length env rest (remove_assignment env s b)
          (List.nodup_cons.1 hnd).2 hcond2 hcond3).2
        have hx' : x ∈ (rest.foldl
            (fun (s : Store) i =>
              match s.active.find? (fun x => x.assignment_id = i) with
              | some a => remove_assignment env s a
              | none => s)
            (remove_assignment env s b)).active := by
          simpa only [List.foldl_cons, hb] using hx
        exact hsub.subset hx'
      intro hxt
      have : x.assignment_id ∈ (s.active.map (fun x => x.assignment_id)).erase t := by
        rw [← hids']
        exact List.mem_map_of_mem _ hxsub
      rw [hxt] at this
      exact (hsnd.not_mem_erase) this
    · -- t ∈ rest: recurse
      have hx' : x ∈ (rest.foldl
          (fun (s : Store) i =>
            match s.active.find? (fun x => x.assignment_id = i) with
            | some a => remove_assignment env s a
            | none => s)
          (remove_assignment env s b)).active := by
        simpa only [List.foldl_cons, hb] using hx
      exact ih (remove_assignment env s b) t (List.nodup_cons.1 hnd).2
        hcond2 hcond3 hti x hx'

/-- Weakening elementwise store predicates. -/
theorem StorePred_mono {G G' : Assignment → Prop} (h : ∀ x, G x → G' x)
    {s : Store} (hs : StorePred G s) : StorePred G' s :=
  ⟨fun x hx => h x (hs.1 x hx), fun sq x hx => h x (hs.2 sq x hx)⟩

/-- If every scope entry is the assignment itself, already seen, or
raw-conflict-free, the renewal scan reports no conflict and changes
nothing. -/
theorem renewScan_all_clear (env : Environment) (pol : ArchitecturePolicy)
    (l : List Assignment) :
    ∀ (seen : List Nat) (a : Assignment) (s : Store),
      (∀ o ∈ l, o.assignment_id = a.assignment_id ∨ o.assignment_id ∈ seen ∨
        conflicts_with a o env = false) →
      renewScan env pol l seen a s = (false, a, s) := by
  induction l with
  | nil => intro seen a s _; rfl
  | cons o rest ih =>
    intro seen a s h
    rcases h o (List.mem_cons_self o rest) with h0 | h0 | h0
    · simp only [renewScan]
      rw [if_pos (Or.inl h0)]
      exact ih seen a s (fun x hx => h x (List.mem_cons_of_mem o hx))
    · simp only [renewScan]
      rw [if_pos (Or.inr h0)]
      exact ih seen a s (fun x hx => h x (List.mem_cons_of_mem o hx))
    · by_cases hsk : o.assignment_id = a.assignment_id ∨ o.assignment_id ∈ seen
      · simp only [renewScan]
        rw [if_pos hsk]
        exact ih seen a s (fun x hx => h x (List.mem_cons_of_mem o hx))
      · simp only [renewScan]
        rw [if_neg hsk, if_neg (by simp [h0])]
        refine ih _ a s (fun x hx => ?_)
        rcases h x (List.mem_cons_of_mem o hx) with hx0 | hx0 | hx0
        · exact Or.inl hx0
        · exact Or.inr (Or.inl (List.mem_cons_of_mem _ hx0))
        · exact Or.inr (Or.inr hx0)

/-- Tracking one assignment id `t` through a whole `renew_assignments` pass:
`G` is an elementwise invariant before `t`'s own iteration, `Gp` one after
it.  `HT` characterizes `t`'s own iteration: it is either flagged for
revocation, or it leaves a store satisfying `Gp`.  The pass then either
removes id `t` entirely (when flagged) or keeps an element with id `t`
satisfying `Gp`. -/
theorem renew_tracked (env : Environment) (pol : ArchitecturePolicy)
    (now : Nat) (st : ManagerState) (t : Nat)
    (hwf1 : (st.store.active.map (fun z => z.assignment_id)).Nodup)
    (htmem : t ∈ st.store.active.map (fun z => z.assignment_id))
    {G Gp : Assignment → Prop}
    (hsp0 : StorePred G st.store)
    (HW : ∀ aj o, G aj → G o → o.assignment_id ≠ aj.assignment_id →
      conflicts_with aj o env = true → G ((apply_mitigation aj o pol env).2.2))
    (HWp : ∀ aj o, Gp aj → Gp o → o.assignment_id ≠ aj.assignment_id →
      conflicts_with aj o env = true → Gp ((apply_mitigation aj o pol env).2.2))
    (HB : ∀ i, i ≠ t → ∀ x y, G x → x.assignment_id = i → sameButQuality x y →
      G y ∧ ∀ nc : Option Nat, G { y with next_check_tick := nc })
    (HBp : ∀ i, i ≠ t → ∀ x y, Gp x → x.assignment_id = i → sameButQuality x y →
      Gp y ∧ ∀ nc : Option Nat, Gp { y with next_check_tick := nc })
    (HT : ∀ s : Store, StorePred G s →
      s.active.map (fun z => z.assignment_id) =
        st.store.active.map (fun z => z.assignment_id) →
      (renewOne env pol now s t).2 = true ∨
      ((renewOne env pol now s t).2 = false ∧
        StorePred Gp (renewOne env pol now s t).1)) :
    ((∃ s₁ : Store, StorePred G s₁ ∧
        s₁.active.map (fun z => z.assignment_id) =
          st.store.active.map (fun z => z.assignment_id) ∧
        (renewOne env pol now s₁ t).2 = true) ∧
      ∀ x ∈ (renew_assignments env pol now st).store.active,
        x.assignment_id ≠ t) ∨
    (∃ x ∈ (renew_assignments env pol now st).store.active,
      x.assignment_id = t ∧ Gp x) := by
  obtain ⟨pre, post, hsplit⟩ := List.append_of_mem htmem
  have hndsplit : (pre ++ t :: post).Nodup := hsplit ▸ hwf1
  have hd := List.nodup_append.1 hndsplit
  have htpre : t ∉ pre := fun h => hd.2.2 h (List.mem_cons_self t post)
  have htpost : t ∉ post := (List.nodup_cons.1 hd.2.1).1
  obtain ⟨hids1, l1, hl1, hsub1⟩ :=
    renew_fold_ids env pol now pre st.store []
  have hsp1 : StorePred G (((pre.foldl
      (fun (acc : Store × List Nat) i =>
        let step := renewOne env pol now acc.1 i
        if step.2 then (step.1, acc.2 ++ [i]) else (step.1, acc.2))
      (st.store, []))).1) :=
    renewFold_StorePred env pol now HW pre st.store []
      (fun i hi => HB i (fun hit => htpre (hit ▸ hi))) hsp0
  simp only [renew_assignments]
  rw [hsplit, List.foldl_append, List.foldl_cons]
  generalize hacc1 : List.foldl
      (fun (acc : Store × List Nat) i =>
        let step := renewOne env pol now acc.1 i
        if step.2 then (step.1, acc.2 ++ [i]) else (step.1, acc.2))
      (st.store, []) pre = acc1
  rw [hacc1] at hids1 hl1 hsp1
  generalize hr1 : renewOne env pol now acc1.1 t = r1
  have hstep := HT acc1.1 hsp1 hids1
  rw [hr1] at hstep
  have hidsr := renewOne_active_ids env pol now acc1.1 t
  rw [hr1] at hidsr
  replace hidsr := hidsr.trans hids1
  have hl1x : acc1.2 = l1 := hl1.trans (List.nil_append l1)
  rcases hstep with hflag | ⟨hflag, hspT⟩
  · -- flagged: id t is revoked
    rw [if_pos hflag]
    obtain ⟨hids3, l3, hl3, hsub3⟩ :=
      renew_fold_ids env pol now post r1.1 (acc1.2 ++ [t])
    have hflsub : ((l1 ++ [t]) ++ l3).Sublist (pre ++ t :: post) := by
      rw [List.append_assoc]
      exact List.Sublist.append hsub1 ((hsub3.cons₂ t))
    have hflnd : ((l1 ++ [t]) ++ l3).Nodup := hflsub.nodup hndsplit
    refine Or.inl ⟨⟨acc1.1, hsp1, hids1.trans hsplit,
      by rw [hr1]; exact hflag⟩, ?_⟩
    intro x hx
    refine removeFold_not_mem env _ _ t ?_ ?_ ?_ ?_ x hx
    · rw [hl3, hl1x]
      exact hflnd
    · intro i hi
      rw [hl3, hl1x] at hi
      rw [hids3, hidsr, hsplit]
      exact hflsub.subset hi
    · rw [hids3, hidsr]
      exact hwf1
    · rw [hl3]
      simp
  · -- not flagged: id t survives with `Gp`
    rw [if_neg (by simp [hflag])]
    obtain ⟨hids3, l3, hl3, hsub3⟩ :=
      renew_fold_ids env pol now post r1.1 acc1.2
    have hsp3 : StorePred Gp ((post.foldl
        (fun (acc : Store × List Nat) i =>
          let step := renewOne env pol now acc.1 i
          if step.2 then (step.1, acc.2 ++ [i]) else (step.1, acc.2))
        (r1.1, acc1.2)).1) :=
      renewFold_StorePred env pol now HWp post r1.1 acc1.2
        (fun i hi => HBp i (fun hit => htpost (hit ▸ hi))) hspT
    have htin3 : t ∈ ((post.foldl
        (fun (acc : Store × List Nat) i =>
          let step := renewOne env pol now acc.1 i
          if step.2 then (step.1, acc.2 ++ [i]) else (step.1, acc.2))
        (r1.1, acc1.2)).1).active.map (fun z => z.assignment_id) := by
      rw [hids3, hidsr, hsplit]
      simp
    obtain ⟨x3, hx3⟩ := findId_exists htin3
    have hx3mem := List.mem_of_find?_eq_some hx3
    have hx3id : x3.assignment_id = t := by
      have := List.find?_some hx3
      simpa using this
    have htfl : t ∉ ((post.foldl
        (fun (acc : Store × List Nat) i =>
          let step := renewOne env pol now acc.1 i
          if step.2 then (step.1, acc.2 ++ [i]) else (step.1, acc.2))
        (r1.1, acc1.2)).2) := by
      rw [hl3, hl1x]
      intro h
      rcases List.mem_append.1 h with h | h
      · exact htpre (hsub1.subset h)
      · exact htpost (hsub3.subset h)
    have hfr := removeFold_findId env ((post.foldl
        (fun (acc : Store × List Nat) i =>
          let step := renewOne env pol now acc.1 i
          if step.2 then (step.1, acc.2 ++ [i]) else (step.1, acc.2))
        (r1.1, acc1.2)).2) ((post.foldl
        (fun (acc : Store × List Nat) i =>
          let step := renewOne env pol now acc.1 i
          if step.2 then (step.1, acc.2 ++ [i]) else (step.1, acc.2))
        (r1.1, acc1.2)).1) t htfl
    refine Or.inr ⟨x3, ?_, hx3id, hsp3.1 x3 hx3mem⟩
    exact List.mem_of_find?_eq_some (hfr.trans hx3)

/-- `immEq` is reflexive. -/
theorem immEq_refl (a : Assignment) : immEq a a :=
  ⟨rfl, rfl, rfl, rfl, rfl, rfl⟩

/-- `immEq` ignores the next-check field, so rewriting it preserves it. -/
theorem immEq_set_nc {x y : Assignment} (h : immEq x y) (nc : Option Nat) :
    immEq x { y with next_check_tick := nc } :=
  ⟨h.1, h.2.1, h.2.2.1, h.2.2.2.1, h.2.2.2.2.1, h.2.2.2.2.2⟩

/-- `setAssignment` transports an elementwise predicate `G` to `Gp` when the
written value satisfies `Gp` and every untouched (different-id) element can
be weakened from `G` to `Gp`. -/
theorem setAssignment_StorePred_map {G Gp : Assignment → Prop} {s : Store}
    (i : Nat) {a' : Assignment} (ha : Gp a')
    (hmap : ∀ x, G x → x.assignment_id ≠ i → Gp x) (hs : StorePred G s) :
    StorePred Gp (setAssignment s i a') := by
  constructor
  · intro x hx
    obtain ⟨y, hy, hyx⟩ := List.mem_map.1 hx
    by_cases hyi : y.assignment_id = i
    · rw [← hyx]
      simpa [hyi] using ha
    · rw [← hyx]
      simpa [hyi] using hmap y (hs.1 y hy) hyi
  · intro sq x hx
    obtain ⟨y, hy, hyx⟩ := List.mem_map.1 hx
    by_cases hyi : y.assignment_id = i
    · rw [← hyx]
      simpa [hyi] using ha
    · rw [← hyx]
      simpa [hyi] using hmap y (hs.2 sq y hy) hyi

/-- De-duplication only drops elements. -/
theorem mem_of_dedupById : ∀ (l : List Assignment) (seen : List Nat)
    {x : Assignment}, x ∈ dedupById l seen → x ∈ l := by
  intro l
  induction l with
  | nil =>
    intro seen x hx
    simp only [dedupById] at hx
    cases hx
  | cons a rest ih =>
    intro seen x hx
    simp only [dedupById] at hx
    split at hx
    · exact List.mem_cons_of_mem a (ih _ hx)
    · rcases List.mem_cons.1 hx with h | h
      · exact h ▸ List.mem_cons_self a rest
      · exact List.mem_cons_of_mem a (ih _ h)

/-- Every assignment in either conflict scope comes from some square's index
list. -/
theorem conflict_scope_mem {env : Environment} {s : Store} {node_id : Nat}
    {uc : Bool} {o : Assignment} (ho : o ∈ conflict_scope env s node_id uc) :
    ∃ sq, o ∈ s.square_to_assignments sq := by
  rw [conflict_scope] at ho
  split at ho
  · simp only [centralized_conflicts] at ho
    obtain ⟨n, _, hn⟩ := List.mem_flatMap.1 ho
    obtain ⟨sq, _, hsq⟩ := List.mem_flatMap.1 hn
    exact ⟨sq, hsq⟩
  · simp only [decentralized_conflicts] at ho
    have ho' := mem_of_dedupById _ _ ho
    obtain ⟨nid, _, hn⟩ := List.mem_flatMap.1 ho'
    obtain ⟨sq, _, hsq⟩ := List.mem_flatMap.1 hn
    exact ⟨sq, (List.mem_filter.1 hsq).1⟩

/-- The admission conflict loop preserves any elementwise store predicate
that is stable under mitigation of an in-scope incumbent. -/
theorem scanConflicts_StorePred {G : Assignment → Prop} (env : Environment)
    (pol : ArchitecturePolicy) (allPcs : List Assignment)
    (HW : ∀ t o, G o → G ((apply_mitigation t o pol env).2.2)) :
    ∀ (l : List Assignment) (seen : List Nat) (temp : Assignment) (s : Store),
      StorePred G s → (∀ o ∈ l, G o) →
      StorePred G (scanConflicts env pol allPcs l seen temp s).2.2 := by
  intro l
  induction l with
  | nil => exact fun seen temp s hs _ => hs
  | cons a rest ih =>
    intro seen temp s hs hl
    simp only [scanConflicts]
    split_ifs <;>
      first
        | exact ih _ _ _ hs (fun o ho => hl o (List.mem_cons_of_mem a ho))
        | exact ih _ _ _ (remove_assignment_StorePred env a hs)
            (fun o ho => hl o (List.mem_cons_of_mem a ho))
        | exact ih _ _ _ (setAssignment_StorePred a.assignment_id
            (HW temp a (hl a (List.mem_cons_self a rest))) hs)
            (fun o ho => hl o (List.mem_cons_of_mem a ho))
        | exact ih _ _ _ (setAssignment_StorePred a.assignment_id
            (hl a (List.mem_cons_self a rest)) hs)
            (fun o ho => hl o (List.mem_cons_of_mem a ho))
        | exact remove_assignment_StorePred env a hs
        | exact hs

/-- The candidate loop never decreases the id allocation counter. -/
theorem tryCandidates_next_id_le (env : Environment)
    (pol : ArchitecturePolicy) (req : SpectrumRequest) (uc : Bool)
    (tick : Nat) :
    ∀ (cands : List (Nat × Nat)) (st : ManagerState) (n : Nat),
      n ≤ st.next_assignment_id →
      n ≤ (tryCandidates env pol req uc tick cands st).1.next_assignment_id := by
  intro cands
  induction cands with
  | nil => exact fun st n h => h
  | cons c rest ih =>
    intro st n h
    obtain ⟨fs, fe⟩ := c
    simp only [tryCandidates]
    split_ifs with hskip hscan
    · exact ih st n h
    · refine ih _ _ ?_
      exact h
    · exact Nat.le_succ_of_le h

/-- The candidate loop preserves `TracedNextCheck`: it writes only quality
fields of incumbents, removes (never edits) on preemption, and inserts only
fresh ids. -/
theorem tryCandidates_TracedNextCheck (env : Environment)
    (pol : ArchitecturePolicy) (req : SpectrumRequest) (uc : Bool)
    (tick : Nat) (st0 : ManagerState) :
    ∀ (cands : List (Nat × Nat)) (st : ManagerState),
      st0.next_assignment_id ≤ st.next_assignment_id →
      StorePred (TracedNextCheck st0) st.store →
      StorePred (TracedNextCheck st0)
        (tryCandidates env pol req uc tick cands st).1.store := by
  have HW : ∀ t o, TracedNextCheck st0 o →
      TracedNextCheck st0 ((apply_mitigation t o pol env).2.2) := by
    intro t o ho
    have hsb := (apply_mitigation_sameButQuality t o pol env).2
    rcases ho with ⟨y, hy, hid, hnc⟩ | hge
    · exact Or.inl ⟨y, hy, by rw [hsb.1]; exact hid,
        by rw [hsb.2.2.2.2.2.1]; exact hnc⟩
    · exact Or.inr (by rw [hsb.1]; exact hge)
  intro cands
  induction cands with
  | nil => exact fun st _ hs => hs
  | cons c rest ih =>
    intro st hle hs
    obtain ⟨fs, fe⟩ := c
    simp only [tryCandidates]
    split_ifs with hskip hscan
    · exact ih st hle hs
    · refine ih _ hle ?_
      refine scanConflicts_StorePred env pol _ HW _ _ _ _ hs ?_
      intro o ho
      obtain ⟨sq, hsq⟩ := conflict_scope_mem ho
      exact hs.2 sq o hsq
    · refine add_assignment_StorePred env ?_ ?_
      · split
        · exact Or.inr hle
        · have hsbq := scanConflicts_temp_sameButQuality env pol
            (conflict_scope env st.store req.node_id uc)
            (conflict_scope env st.store req.node_id uc) []
            { assignment_id := st.next_assignment_id, node_id := req.node_id,
              freq_start := fs, freq_end := fe, device_type := req.device_type,
              quality := 1, next_check_tick := none,
              priority_tier := get_priority_tier pol req.device_type } st.store
          exact Or.inr (by rw [hsbq.1]; exact hle)
      · refine scanConflicts_StorePred env pol _ HW _ _ _ _ hs ?_
        intro o ho
        obtain ⟨sq, hsq⟩ := conflict_scope_mem ho
        exact hs.2 sq o hsq

/-- `process_arrivals` never changes the next-check time of a persisting
assignment: afterwards, every active assignment either keeps the id and
next-check time of a pre-batch assignment or is a fresh grant. -/
theorem arrivals_traced (env : Environment) (pol : ArchitecturePolicy)
    (reqs : List (SpectrumRequest × List (Nat × Nat) × Bool)) (tick : Nat)
    (st : ManagerState)
    (hwf2 : ∀ sq, ∀ x ∈ st.store.square_to_assignments sq,
      x ∈ st.store.active) :
    ∀ x ∈ (process_arrivals env pol reqs tick st).store.active,
      TracedNextCheck st x := by
  have hgen : ∀ (rs : List (SpectrumRequest × List (Nat × Nat) × Bool))
      (st' : ManagerState),
      st.next_assignment_id ≤ st'.next_assignment_id →
      StorePred (TracedNextCheck st) st'.store →
      StorePred (TracedNextCheck st)
        (rs.foldl
          (fun s r => (admitRequest env pol r.1 r.2.1 r.2.2 tick s).1)
          st').store := by
    intro rs
    induction rs with
    | nil => exact fun st' _ hs => hs
    | cons r rest ih =>
      intro st' hle hs
      simp only [List.foldl_cons]
      refine ih _ (tryCandidates_next_id_le env pol r.1 _ tick
        r.2.1 st' _ hle) ?_
      exact tryCandidates_TracedNextCheck env pol r.1 _ tick st r.2.1 st'
        hle hs
  intro x hx
  have h0 : StorePred (TracedNextCheck st) st.store := by
    constructor
    · intro z hz
      exact Or.inl ⟨z, hz, rfl, rfl⟩
    · intro sq z hz
      exact Or.inl ⟨z, hwf2 sq z hz, rfl, rfl⟩
  exact (hgen reqs st (Nat.le_refl _) h0).1 x hx

/-- A not-yet-due assignment survives a renewal pass with its id, frequency
interval, device type, tier and next-check time unchanged (only its quality
may move, by incumbent-side mitigation). -/
theorem renew_not_due_preserved (env : Environment) (pol : ArchitecturePolicy)
    (now : Nat) (st : ManagerState)
    (hwf1 : (st.store.active.map (fun z => z.assignment_id)).Nodup)
    (hwf2 : ∀ sq, ∀ x ∈ st.store.square_to_assignments sq,
      x ∈ st.store.active)
    (a : Assignment) (ha : a ∈ st.store.active)
    (hnd : a.next_check_tick ≠ some now) :
    ∃ a' ∈ (renew_assignments env pol now st).store.active,
      sameButQuality a a' := by
  have htmem : a.assignment_id ∈
      st.store.active.map (fun z => z.assignment_id) :=
    List.mem_map_of_mem _ ha
  have hsp0 : StorePred (fun x => x.assignment_id = a.assignment_id →
      sameButQuality a x) st.store := by
    constructor
    · intro x hx hxt
      rw [eq_of_mem_of_id_eq hwf1 ha hx hxt]
      exact sameButQuality_refl a
    · intro sq x hx hxt
      rw [eq_of_mem_of_id_eq hwf1 ha (hwf2 sq x hx) hxt]
      exact sameButQuality_refl a
  have HW : ∀ aj o,
      (aj.assignment_id = a.assignment_id → sameButQuality a aj) →
      (o.assignment_id = a.assignment_id → sameButQuality a o) →
      o.assignment_id ≠ aj.assignment_id → conflicts_with aj o env = true →
      (((apply_mitigation aj o pol env).2.2).assignment_id =
          a.assignment_id →
        sameButQuality a ((apply_mitigation aj o pol env).2.2)) := by
    intro aj o _ hGo _ _ hvt
    have hsb := (apply_mitigation_sameButQuality aj o pol env).2
    rw [hsb.1] at hvt
    exact sameButQuality_trans (hGo hvt) hsb
  have HB : ∀ i, i ≠ a.assignment_id → ∀ x y,
      (x.assignment_id = a.assignment_id → sameButQuality a x) →
      x.assignment_id = i → sameButQuality x y →
      ((y.assignment_id = a.assignment_id → sameButQuality a y) ∧
        ∀ nc : Option Nat,
          (({ y with next_check_tick := nc } : Assignment).assignment_id =
              a.assignment_id →
            sameButQuality a { y with next_check_tick := nc })) := by
    intro i hi x y _ hxi hxy
    constructor
    · intro hyt
      have : i = a.assignment_id := by
        rw [← hxi, ← hxy.1]
        exact hyt
      exact absurd this hi
    · intro nc hyt
      have : i = a.assignment_id := by
        rw [← hxi, ← hxy.1]
        exact hyt
      exact absurd this hi
  have HTe : ∀ s : Store,
      StorePred (fun x => x.assignment_id = a.assignment_id →
        sameButQuality a x) s →
      s.active.map (fun z => z.assignment_id) =
        st.store.active.map (fun z => z.assignment_id) →
      renewOne env pol now s a.assignment_id = (s, false) := by
    intro s hsp hids
    obtain ⟨x, hfind⟩ := findId_exists
      (show a.assignment_id ∈ s.active.map (fun z => z.assignment_id) by
        rw [hids]; exact htmem)
    have hxid : x.assignment_id = a.assignment_id := by
      simpa using List.find?_some hfind
    have hsbq := hsp.1 x (List.mem_of_find?_eq_some hfind) hxid
    have hcond : x.next_check_tick ≠ some now := by
      rw [hsbq.2.2.2.2.2.1]
      exact hnd
    simp only [renewOne, hfind]
    rw [if_pos hcond]
  rcases renew_tracked env pol now st a.assignment_id hwf1 htmem hsp0 HW HW
      HB HB (fun s h1 h2 => Or.inr (by rw [HTe s h1 h2]; exact ⟨rfl, h1⟩))
    with ⟨⟨s₁, hs₁, hids₁, hfl₁⟩, _⟩ | ⟨x, hxmem, hxid, hGx⟩
  · rw [HTe s₁ hs₁ hids₁] at hfl₁
    simp at hfl₁
  · exact ⟨x, hxmem, hGx hxid⟩

/-- A due assignment is either revoked entirely, or it survives with its
immutable fields intact and its next-check time advanced to exactly
`now + interval`. -/
theorem renew_due_outcome (env : Environment) (pol : ArchitecturePolicy)
    (now : Nat) (st : ManagerState)
    (hwf1 : (st.store.active.map (fun z => z.assignment_id)).Nodup)
    (hwf2 : ∀ sq, ∀ x ∈ st.store.square_to_assignments sq,
      x ∈ st.store.active)
    (a : Assignment) (ha : a ∈ st.store.active)
    (hdue : a.next_check_tick = some now) :
    (∀ x ∈ (renew_assignments env pol now st).store.active,
      x.assignment_id ≠ a.assignment_id) ∨
    (∃ a' ∈ (renew_assignments env pol now st).store.active,
      a'.assignment_id = a.assignment_id ∧ immEq a a' ∧
      a'.next_check_tick = some (now + (query_interval pol).getD 0)) := by
  have htmem : a.assignment_id ∈
      st.store.active.map (fun z => z.assignment_id) :=
    List.mem_map_of_mem _ ha
  have hsp0 : StorePred (fun x => x.assignment_id = a.assignment_id →
      sameButQuality a x) st.store := by
    constructor
    · intro x hx hxt
      rw [eq_of_mem_of_id_eq hwf1 ha hx hxt]
      exact sameButQuality_refl a
    · intro sq x hx hxt
      rw [eq_of_mem_of_id_eq hwf1 ha (hwf2 sq x hx) hxt]
      exact sameButQuality_refl a
  have HW : ∀ aj o,
      (aj.assignment_id = a.assignment_id → sameButQuality a aj) →
      (o.assignment_id = a.assignment_id → sameButQuality a o) →
      o.assignment_id ≠ aj.assignment_id → conflicts_with aj o env = true →
      (((apply_mitigation aj o pol env).2.2).assignment_id =
          a.assignment_id →
        sameButQuality a ((apply_mitigation aj o pol env).2.2)) := by
    intro aj o _ hGo _ _ hvt
    have hsb := (apply_mitigation_sameButQuality aj o pol env).2
    rw [hsb.1] at hvt
    exact sameButQuality_trans (hGo hvt) hsb
  have HB : ∀ i, i ≠ a.assignment_id → ∀ x y,
      (x.assignment_id = a.assignment_id → sameButQuality a x) →
      x.assignment_id = i → sameButQuality x y →
      ((y.assignment_id = a.assignment_id → sameButQuality a y) ∧
        ∀ nc : Option Nat,
          (({ y with next_check_tick := nc } : Assignment).assignment_id =
              a.assignment_id →
            sameButQuality a { y with next_check_tick := nc })) := by
    intro i hi x y _ hxi hxy
    constructor
    · intro hyt
      have : i = a.assignment_id := by
        rw [← hxi, ← hxy.1]
        exact hyt
      exact absurd this hi
    · intro nc hyt
      have : i = a.assignment_id := by
        rw [← hxi, ← hxy.1]
        exact hyt
      exact absurd this hi
  have HWp : ∀ aj o,
      (aj.assignment_id = a.assignment_id → immEq a aj ∧
        aj.next_check_tick = some (now + (query_interval pol).getD 0)) →
      (o.assignment_id = a.assignment_id → immEq a o ∧
        o.next_check_tick = some (now + (query_interval pol).getD 0)) →
      o.assignment_id ≠ aj.assignment_id → conflicts_with aj o env = true →
      (((apply_mitigation aj o pol env).2.2).assignment_id =
          a.assignment_id →
        immEq a ((apply_mitigation aj o pol env).2.2) ∧
        ((apply_mitigation aj o pol env).2.2).next_check_tick =
          some (now + (query_interval pol).getD 0)) := by
    intro aj o _ hGo _ _ hvt
    have hsb := (apply_mitigation_sameButQuality aj o pol env).2
    rw [hsb.1] at hvt
    obtain ⟨h1, h2⟩ := hGo hvt
    refine ⟨immEq_trans h1 (immEq_of_sameButQuality hsb), ?_⟩
    rw [hsb.2.2.2.2.2.1]
    exact h2
  have HBp : ∀ i, i ≠ a.assignment_id → ∀ x y,
      (x.assignment_id = a.assignment_id → immEq a x ∧
        x.next_check_tick = some (now + (query_interval pol).getD 0)) →
      x.assignment_id = i → sameButQuality x y →
      ((y.assignment_id = a.assignment_id → immEq a y ∧
          y.next_check_tick = some (now + (query_interval pol).getD 0)) ∧
        ∀ nc : Option Nat,
          (({ y with next_check_tick := nc } : Assignment).assignment_id =
              a.assignment_id →
            immEq a ({ y with next_check_tick := nc } : Assignment) ∧
            ({ y with next_check_tick := nc } : Assignment).next_check_tick =
              some (now + (query_interval pol).getD 0))) := by
    intro i hi x y _ hxi hxy
    constructor
    · intro hyt
      have : i = a.assignment_id := by
        rw [← hxi, ← hxy.1]
        exact hyt
      exact absurd this hi
    · intro nc hyt
      have : i = a.assignment_id := by
        rw [← hxi, ← hxy.1]
        exact hyt
      exact absurd this hi
  have HT : ∀ s : Store,
      StorePred (fun x => x.assignment_id = a.assignment_id →
        sameButQuality a x) s →
      s.active.map (fun z => z.assignment_id) =
        st.store.active.map (fun z => z.assignment_id) →
      (renewOne env pol now s a.assignment_id).2 = true ∨
      ((renewOne env pol now s a.assignment_id).2 = false ∧
        StorePred (fun x => x.assignment_id = a.assignment_id →
          immEq a x ∧ x.next_check_tick =
            some (now + (query_interval pol).getD 0))
          (renewOne env pol now s a.assignment_id).1) := by
    intro s hsp hids
    obtain ⟨x, hfind⟩ := findId_exists
      (show a.assignment_id ∈ s.active.map (fun z => z.assignment_id) by
        rw [hids]; exact htmem)
    have hxid : x.assignment_id = a.assignment_id := by
      simpa using List.find?_some hfind
    have hsbq := hsp.1 x (List.mem_of_find?_eq_some hfind) hxid
    have hxdue : x.next_check_tick = some now := by
      rw [hsbq.2.2.2.2.2.1]
      exact hdue
    simp only [renewOne, hfind]
    rw [if_neg (by simp [hxdue])]
    cases hsc : (renewScan env pol
        ((env.nodes.getD x.node_id defaultNode).covered_squares.flatMap
          s.square_to_assignments) [] x s).1 with
    | true =>
      rw [if_pos rfl]
      exact Or.inl rfl
    | false =>
      rw [if_neg (by simp)]
      refine Or.inr ⟨rfl, ?_⟩
      have hsbscan := renewScan_self_sameButQuality env pol
        ((env.nodes.getD x.node_id defaultNode).covered_squares.flatMap
          s.square_to_assignments) [] x s
      refine setAssignment_StorePred_local _ a.assignment_id ?_ ?_
      · intro _
        refine ⟨?_, rfl⟩
        exact immEq_set_nc (immEq_trans (immEq_of_sameButQuality hsbq)
          (immEq_of_sameButQuality hsbscan)) _
      · intro z hz
        exact fun h => absurd h hz
  rcases renew_tracked env pol now st a.assignment_id hwf1 htmem hsp0 HW HWp
      HB HBp HT with ⟨_, hnone⟩ | ⟨x, hxm, hxid, hGpx⟩
  · exact Or.inl hnone
  · obtain ⟨h1, h2⟩ := hGpx hxid
    exact Or.inr ⟨x, hxm, hxid, h1, h2⟩

/-- Each renewal pass converts flagged assignments one-for-one into denial
counts: the denial counter grows by exactly the number of removed
assignments, and the grant counter is untouched. -/
theorem renew_accounting (env : Environment) (pol : ArchitecturePolicy)
    (now : Nat) (st : ManagerState)
    (hwf1 : (st.store.active.map (fun z => z.assignment_id)).Nodup) :
    ∃ k, (renew_assignments env pol now st).metrics.requests_denied =
        st.metrics.requests_denied + k ∧
      (renew_assignments env pol now st).store.active.length + k =
        st.store.active.length ∧
      (renew_assignments env pol now st).metrics.requests_total =
        st.metrics.requests_total := by
  obtain ⟨hids1, l1, hl1, hsub1⟩ := renew_fold_ids env pol now
    (st.store.active.map (fun a => a.assignment_id)) st.store []
  have hl1x := hl1.trans (List.nil_append l1)
  simp only [renew_assignments]
  refine ⟨_, rfl, ?_, True.intro⟩
  rw [hl1x]
  refine ((removeFold_length env l1 _ (hsub1.nodup hwf1) ?_ ?_).1).trans ?_
  · intro i hi
    rw [hids1]
    exact hsub1.subset hi
  · rw [hids1]
    exact hwf1
  · have := congrArg List.length hids1
    simpa using this

/-- A due assignment that raw-conflicts with no other active assignment is
renewed with its quality untouched and its next-check time advanced to
exactly `now + interval`. -/
theorem renew_conflict_free_quality (env : Environment)
    (pol : ArchitecturePolicy) (now : Nat) (st : ManagerState)
    (hwf1 : (st.store.active.map (fun z => z.assignment_id)).Nodup)
    (hwf2 : ∀ sq, ∀ x ∈ st.store.square_to_assignments sq,
      x ∈ st.store.active)
    (a : Assignment) (ha : a ∈ st.store.active)
    (hdue : a.next_check_tick = some now)
    (hcf : ∀ b ∈ st.store.active, b.assignment_id ≠ a.assignment_id →
      conflicts_with a b env = false) :
    ∃ a' ∈ (renew_assignments env pol now st).store.active,
      a'.assignment_id = a.assignment_id ∧ a'.quality = a.quality ∧
      a'.next_check_tick = some (now + (query_interval pol).getD 0) := by
  have htmem : a.assignment_id ∈
      st.store.active.map (fun z => z.assignment_id) :=
    List.mem_map_of_mem _ ha
  have hsp0 : StorePred (fun x =>
      (∃ y ∈ st.store.active, y.assignment_id = x.assignment_id ∧
        immEq y x) ∧
      (x.assignment_id = a.assignment_id → x = a)) st.store := by
    constructor
    · intro x hx
      exact ⟨⟨x, hx, rfl, immEq_refl x⟩,
        fun hxt => eq_of_mem_of_id_eq hwf1 ha hx hxt⟩
    · intro sq x hx
      exact ⟨⟨x, hwf2 sq x hx, rfl, immEq_refl x⟩,
        fun hxt => eq_of_mem_of_id_eq hwf1 ha (hwf2 sq x hx) hxt⟩
  have HW : ∀ aj o,
      ((∃ y ∈ st.store.active, y.assignment_id = aj.assignment_id ∧
          immEq y aj) ∧
        (aj.assignment_id = a.assignment_id → aj = a)) →
      ((∃ y ∈ st.store.active, y.assignment_id = o.assignment_id ∧
          immEq y o) ∧
        (o.assignment_id = a.assignment_id → o = a)) →
      o.assignment_id ≠ aj.assignment_id → conflicts_with aj o env = true →
      ((∃ y ∈ st.store.active, y.assignment_id =
          ((apply_mitigation aj o pol env).2.2).assignment_id ∧
          immEq y ((apply_mitigation aj o pol env).2.2)) ∧
        (((apply_mitigation aj o pol env).2.2).assignment_id =
            a.assignment_id →
          (apply_mitigation aj o pol env).2.2 = a)) := by
    intro aj o hGaj hGo hne hc
    have hsb := (apply_mitigation_sameButQuality aj o pol env).2
    constructor
    · obtain ⟨y, hy, hid, him⟩ := hGo.1
      exact ⟨y, hy, by rw [hsb.1]; exact hid,
        immEq_trans him (immEq_of_sameButQuality hsb)⟩
    · intro hvt
      rw [hsb.1] at hvt
      have hoa := hGo.2 hvt
      obtain ⟨yj, hyj, hidj, himj⟩ := hGaj.1
      rw [hoa] at hc hne
      have hyja : yj.assignment_id ≠ a.assignment_id := by
        intro h
        rw [hidj] at h
        exact hne h.symm
      have hfalse := hcf yj hyj hyja
      have hchain : conflicts_with aj a env = conflicts_with a yj env :=
        (conflicts_with_congr_left a env himj).trans
          (conflicts_with_symm yj a env)
      rw [hchain, hfalse] at hc
      simp at hc
  have HB : ∀ i, i ≠ a.assignment_id → ∀ x y,
      ((∃ z ∈ st.store.active, z.assignment_id = x.assignment_id ∧
          immEq z x) ∧
        (x.assignment_id = a.assignment_id → x = a)) →
      x.assignment_id = i → sameButQuality x y →
      (((∃ z ∈ st.store.active, z.assignment_id = y.assignment_id ∧
          immEq z y) ∧
        (y.assignment_id = a.assignment_id → y = a)) ∧
        ∀ nc : Option Nat,
          ((∃ z ∈ st.store.active, z.assignment_id =
              ({ y with next_check_tick := nc } : Assignment).assignment_id ∧
              immEq z ({ y with next_check_tick := nc } : Assignment)) ∧
            (({ y with next_check_tick := nc } : Assignment).assignment_id =
                a.assignment_id →
              ({ y with next_check_tick := nc } : Assignment) = a))) := by
    intro i hi x y hGx hxi hxy
    obtain ⟨⟨z, hz, hidz, himz⟩, _⟩ := hGx
    constructor
    · constructor
      · refine ⟨z, hz, ?_, immEq_trans himz (immEq_of_sameButQuality hxy)⟩
        rw [hxy.1]
        exact hidz
      · intro hyt
        have : i = a.assignment_id := by
          rw [← hxi, ← hxy.1]
          exact hyt
        exact absurd this hi
    · intro nc
      constructor
      · refine ⟨z, hz, ?_, immEq_set_nc
          (immEq_trans himz (immEq_of_sameButQuality hxy)) nc⟩
        show z.assignment_id = y.assignment_id
        rw [hxy.1]
        exact hidz
      · intro hyt
        have : i = a.assignment_id := by
          rw [← hxi, ← hxy.1]
          exact hyt
        exact absurd this hi
  have HWp : ∀ aj o,
      ((∃ y ∈ st.store.active, y.assignment_id = aj.assignment_id ∧
          immEq y aj) ∧
        (aj.assignment_id = a.assignment_id → aj.quality = a.quality ∧
          aj.next_check_tick = some (now + (query_interval pol).getD 0))) →
      ((∃ y ∈ st.store.active, y.assignment_id = o.assignment_id ∧
          immEq y o) ∧
        (o.assignment_id = a.assignment_id → o.quality = a.quality ∧
          o.next_check_tick = some (now + (query_interval pol).getD 0))) →
      o.assignment_id ≠ aj.assignment_id → conflicts_with aj o env = true →
      ((∃ y ∈ st.store.active, y.assignment_id =
          ((apply_mitigation aj o pol env).2.2).assignment_id ∧
          immEq y ((apply_mitigation aj o pol env).2.2)) ∧
        (((apply_mitigation aj o pol env).2.2).assignment_id =
            a.assignment_id →
          ((apply_mitigation aj o pol env).2.2).quality = a.quality ∧
          ((apply_mitigation aj o pol env).2.2).next_check_tick =
            some (now + (query_interval pol).getD 0))) := by
    intro aj o hGaj hGo hne hc
    have hsb := (apply_mitigation_sameButQuality aj o pol env).2
    constructor
    · obtain ⟨y, hy, hid, him⟩ := hGo.1
      exact ⟨y, hy, by rw [hsb.1]; exact hid,
        immEq_trans him (immEq_of_sameButQuality hsb)⟩
    · intro hvt
      rw [hsb.1] at hvt
      obtain ⟨yo, hyo, hido, himo⟩ := hGo.1
      have hyoa : yo = a := eq_of_mem_of_id_eq hwf1 ha hyo
        (by rw [hido]; exact hvt)
      rw [hyoa] at himo
      obtain ⟨yj, hyj, hidj, himj⟩ := hGaj.1
      have hyja : yj.assignment_id ≠ a.assignment_id := by
        intro h
        apply hne
        rw [hvt, ← h]
        exact hidj
      have hfalse := hcf yj hyj hyja
      have hchain : conflicts_with aj o env = conflicts_with a yj env :=
        (conflicts_with_congr_right aj env himo).trans
          ((conflicts_with_congr_left a env himj).trans
            (conflicts_with_symm yj a env))
      rw [hchain, hfalse] at hc
      simp at hc
  have HBp : ∀ i, i ≠ a.assignment_id → ∀ x y,
      ((∃ z ∈ st.store.active, z.assignment_id = x.assignment_id ∧
          immEq z x) ∧
        (x.assignment_id = a.assignment_id → x.quality = a.quality ∧
          x.next_check_tick = some (now + (query_interval pol).getD 0))) →
      x.assignment_id = i → sameButQuality x y →
      (((∃ z ∈ st.store.active, z.assignment_id = y.assignment_id ∧
          immEq z y) ∧
        (y.assignment_id = a.assignment_id → y.quality = a.quality ∧
          y.next_check_tick = some (now + (query_interval pol).getD 0))) ∧
        ∀ nc : Option Nat,
          ((∃ z ∈ st.store.active, z.assignment_id =
              ({ y with next_check_tick := nc } : Assignment).assignment_id ∧
              immEq z ({ y with next_check_tick := nc } : Assignment)) ∧
            (({ y with next_check_tick := nc } : Assignment).assignment_id =
                a.assignment_id →
              ({ y with next_check_tick := nc } : Assignment).quality =
                a.quality ∧
              ({ y with next_check_tick := nc } :
                Assignment).next_check_tick =
                some (now + (query_interval pol).getD 0)))) := by
    intro i hi x y hGx hxi hxy
    obtain ⟨⟨z, hz, hidz, himz⟩, _⟩ := hGx
    constructor
    · constructor
      · refine ⟨z, hz, ?_, immEq_trans himz (immEq_of_sameButQuality hxy)⟩
        rw [hxy.1]
        exact hidz
      · intro hyt
        have : i = a.assignment_id := by
          rw [← hxi, ← hxy.1]
          exact hyt
        exact absurd this hi
    · intro nc
      constructor
      · refine ⟨z, hz, ?_, immEq_set_nc
          (immEq_trans himz (immEq_of_sameButQuality hxy)) nc⟩
        show z.assignment_id = y.assignment_id
        rw [hxy.1]
        exact hidz
      · intro hyt
        have : i = a.assignment_id := by
          rw [← hxi, ← hxy.1]
          exact hyt
        exact absurd this hi
  have HTe : ∀ s : Store,
      StorePred (fun x =>
        (∃ y ∈ st.store.active, y.assignment_id = x.assignment_id ∧
          immEq y x) ∧
        (x.assignment_id = a.assignment_id → x = a)) s →
      s.active.map (fun z => z.assignment_id) =
        st.store.active.map (fun z => z.assignment_id) →
      ((renewOne env pol now s a.assignment_id).2 = false ∧
        StorePred (fun x =>
          (∃ y ∈ st.store.active, y.assignment_id = x.assignment_id ∧
            immEq y x) ∧
          (x.assignment_id = a.assignment_id → x.quality = a.quality ∧
            x.next_check_tick =
              some (now + (query_interval pol).getD 0)))
          (renewOne env pol now s a.assignment_id).1) := by
    intro s hsp hids
    obtain ⟨x, hfind⟩ := findId_exists
      (show a.assignment_id ∈ s.active.map (fun z => z.assignment_id) by
        rw [hids]; exact htmem)
    have hxid : x.assignment_id = a.assignment_id := by
      simpa using List.find?_some hfind
    have hxa : x = a := (hsp.1 x (List.mem_of_find?_eq_some hfind)).2 hxid
    have hxdue : x.next_check_tick = some now := by
      rw [hxa]
      exact hdue
    have hclear : renewScan env pol
        ((env.nodes.getD x.node_id defaultNode).covered_squares.flatMap
          s.square_to_assignments) [] x s = (false, x, s) := by
      refine renewScan_all_clear env pol _ [] x s ?_
      intro o ho
      by_cases hox : o.assignment_id = x.assignment_id
      · exact Or.inl hox
      · refine Or.inr (Or.inr ?_)
        obtain ⟨sq, hsq⟩ := mem_flatMap_idx ho
        obtain ⟨⟨yo, hyo, hido, himo⟩, _⟩ := hsp.2 sq o hsq
        have hyoa : yo.assignment_id ≠ a.assignment_id := by
          rw [hido]
          intro h
          exact hox (by rw [h, hxa])
        have hfo := hcf yo hyo hyoa
        have h1 : conflicts_with x o env = conflicts_with a yo env := by
          rw [hxa]
          exact conflicts_with_congr_right a env himo
        rw [h1]
        exact hfo
    have hre : renewOne env pol now s a.assignment_id =
        (setAssignment s a.assignment_id
          { x with
            next_check_tick := some (now + (query_interval pol).getD 0) },
         false) := by
      simp only [renewOne, hfind]
      rw [if_neg (by simp [hxdue]), hclear]
      rfl
    rw [hre]
    refine ⟨rfl, ?_⟩
    refine setAssignment_StorePred_map a.assignment_id ?_ ?_ hsp
    · constructor
      · refine ⟨a, ha, ?_, immEq_set_nc (by rw [hxa]; exact immEq_refl a) _⟩
        show a.assignment_id = x.assignment_id
        rw [hxa]
      · intro _
        refine ⟨?_, rfl⟩
        show x.quality = a.quality
        rw [hxa]
    · intro z hGz hz
      exact ⟨hGz.1, fun h => absurd h hz⟩
  rcases renew_tracked env pol now st a.assignment_id hwf1 htmem hsp0 HW HWp
      HB HBp (fun s h1 h2 => Or.inr (HTe s h1 h2))
    with ⟨⟨s₁, hs₁, hids₁, hfl₁⟩, _⟩ | ⟨x, hxm, hxid, hGpx⟩
  · rw [(HTe s₁ hs₁ hids₁).1] at hfl₁
    simp at hfl₁
  · obtain ⟨h1, h2⟩ := hGpx.2 hxid
    exact ⟨x, hxm, hxid, h1, h2⟩

/-- C3 counterexample: in `st3` (two conflicting "opposite" assignments,
Power Control, Semi-Dynamic), renewing at tick 100 re-validates the due
assignment (id 1), resolves its conflict by mitigation — multiplying BOTH
sides' qualities by 0.7 — and advances its next-check to 100 + 1440.  Its
quality is 0.7 afterwards although it was 1 before, refuting the spec's
"quality preserved" for renewed assignments. -/
theorem c3_counterexample :
    (renew_assignments env1 polPC 100 st3).store.active =
      [{ ren3due with quality := 7 / 10, next_check_tick := some 1540 },
       { ren3other with quality := 7 / 10 }] ∧
    ren3due.quality = 1 ∧ ren3due.next_check_tick = some 100 ∧
    ((7 : ℚ) / 10) ≠ 1 := by
  refine ⟨?_, rfl, rfl, by norm_num⟩
  simp +decide [renew_assignments, renewOne, renewScan, conflicts_with,
    sharedSquares, apply_mitigation, get_node_relationship, setAssignment,
    remove_assignment, query_interval, env1, Environment.make,
    generate_nodes, polPC, st3, ren3due, ren3other, defaultNode,
    FREQ_BASE_MHZ, TOTAL_BANDWIDTH_MHZ]

/-- C3 (amended): a renewal pass at tick `now` re-validates exactly the
active assignments whose next-check time equals `now` (others survive with
everything but quality untouched, conjunct 1); a due assignment is either
revoked outright or survives with immutable fields intact and next-check
advanced to exactly `now + interval` (conjunct 2); each revocation is
counted as one denial and the grant counter is untouched (conjunct 3); a
conflict-free due assignment is renewed with its quality preserved
(conjunct 4) — but a mitigation-resolved one is not, see the
counterexample; and no admission batch ever moves a persisting assignment's
next-check time (conjunct 5). -/
theorem c3_renewal_semantics (env : Environment) (pol : ArchitecturePolicy)
    (now : Nat) (st : ManagerState) (hwf : StoreWF st.store) :
    (∀ a ∈ st.store.active, a.next_check_tick ≠ some now →
      ∃ a' ∈ (renew_assignments env pol now st).store.active,
        sameButQuality a a') ∧
    (∀ a ∈ st.store.active, a.next_check_tick = some now →
      (∀ x ∈ (renew_assignments env pol now st).store.active,
        x.assignment_id ≠ a.assignment_id) ∨
      (∃ a' ∈ (renew_assignments env pol now st).store.active,
        a'.assignment_id = a.assignment_id ∧ immEq a a' ∧
        a'.next_check_tick = some (now + (query_interval pol).getD 0))) ∧
    (∃ k, (renew_assignments env pol now st).metrics.requests_denied =
        st.metrics.requests_denied + k ∧
      (renew_assignments env pol now st).store.active.length + k =
        st.store.active.length ∧
      (renew_assignments env pol now st).metrics.requests_total =
        st.metrics.requests_total) ∧
    (∀ a ∈ st.store.active, a.next_check_tick = some now →
      (∀ b ∈ st.store.active, b.assignment_id ≠ a.assignment_id →
        conflicts_with a b env = false) →
      ∃ a' ∈ (renew_assignments env pol now st).store.active,
        a'.assignment_id = a.assignment_id ∧ a'.quality = a.quality ∧
        a'.next_check_tick = some (now + (query_interval pol).getD 0)) ∧
    (∀ (reqs : List (SpectrumRequest × List (Nat × Nat) × Bool))
      (tick : Nat),
      ∀ x ∈ (process_arrivals env pol reqs tick st).store.active,
        TracedNextCheck st x) := by
  obtain ⟨hwf1, hwf2, _⟩ := hwf
  exact ⟨fun a ha hnd =>
      renew_not_due_preserved env pol now st hwf1 hwf2 a ha hnd,
    fun a ha hdue => renew_due_outcome env pol now st hwf1 hwf2 a ha hdue,
    renew_accounting env pol now st hwf1,
    fun a ha hdue hcf =>
      renew_conflict_free_quality env pol now st hwf1 hwf2 a ha hdue hcf,
    fun reqs tick x hx => arrivals_traced env pol reqs tick st hwf2 x hx⟩

/-- Witness for the amended C3 at the concrete state `st3`: the
well-formedness hypothesis holds, the not-yet-due assignment survives
renewal at tick 100 with everything but quality unchanged, and the
denial/removal accounting balances. -/
theorem c3_renewal_semantics_witness :
    StoreWF st3.store ∧
    (∃ a' ∈ (renew_assignments env1 polPC 100 st3).store.active,
      sameButQuality ren3other a') ∧
    (∃ k, (renew_assignments env1 polPC 100 st3).metrics.requests_denied =
        st3.metrics.requests_denied + k ∧
      (renew_assignments env1 polPC 100 st3).store.active.length + k =
        st3.store.active.length ∧
      (renew_assignments env1 polPC 100 st3).metrics.requests_total =
        st3.metrics.requests_total) := by
  have h := c3_renewal_semantics env1 polPC 100 st3 st3_store_wf
  exact ⟨st3_store_wf, h.1 ren3other (by decide) (by decide), h.2.2.1⟩

end SpectrumSim
